import Mathlib

/-!
Verification development for the astro_modintegrator asset-integration engine
(src/src/astro_integrator.rs).  The package data model and the four
transformation handlers are shallowly embedded below; operations consumed from
the excluded asset-codec and archive crates (unreal_asset, unreal_pak,
unreal_modintegrator) are modelled from the specification, as marked on each
such definition.
-/

set_option maxRecDepth 8000

/-- A serialized name reference: interned string content plus instance number
(unreal_asset FName). -/
structure FName where
  content : String
  index : Int
deriving DecidableEq, Repr

/-- An Import Table record, identity-unique under the 4-tuple
(class_package, class_name, outer_index, object_name). -/
structure Import where
  class_package : FName
  class_name : FName
  outer_index : Int
  object_name : FName
deriving DecidableEq, Repr

/-- A tagged property value attached to a NormalExport, mirroring the
unreal_asset Property variants used by the integrator. -/
inductive Property where
  | boolProperty (name : FName) (property_guid : Option (List Nat)) (duplication_index : Int) (value : Bool)
  | enumProperty (name : FName) (property_guid : Option (List Nat)) (duplication_index : Int) (enum_type : Option FName) (value : FName)
  | objectProperty (name : FName) (property_guid : Option (List Nat)) (duplication_index : Int) (value : Int)
  | softObjectProperty (name : FName) (property_guid : Option (List Nat)) (duplication_index : Int) (value : FName) (id : Nat)
  | nameProperty (name : FName) (property_guid : Option (List Nat)) (duplication_index : Int) (value : FName)
  | guidProperty (name : FName) (property_guid : Option (List Nat)) (duplication_index : Int) (value : List Nat)
  | structProperty (name : FName) (struct_type : Option FName) (struct_guid : Option (List Nat)) (property_guid : Option (List Nat)) (duplication_index : Int) (serialize_none : Bool) (value : List Property)
  | arrayProperty (name : FName) (array_type : Option FName) (property_guid : Option (List Nat)) (duplication_index : Int) (value : List Property)
deriving Repr

/-- Export metadata common to every export variant: class/template/outer
references and the four dependency edge lists. -/
structure BaseExport where
  class_index : Int
  object_name : FName
  outer_index : Int
  template_index : Int
  object_flags : Nat
  serialization_before_serialization_dependencies : List Int
  create_before_serialization_dependencies : List Int
  serialization_before_create_dependencies : List Int
  create_before_create_dependencies : List Int
deriving Repr

/-- An export with an ordered property list and raw trailing bytes. -/
structure NormalExport where
  base_export : BaseExport
  extras : List Nat
  properties : List Property
deriving Repr

/-- The Level export: a NormalExport plus the flat list of owned top-level
object indices. -/
structure LevelExport where
  normal_export : NormalExport
  index_data : List Int
deriving Repr

/-- A struct export: a NormalExport plus a list of child object indices. -/
structure StructExport where
  normal_export : NormalExport
  children : List Int
deriving Repr

/-- An opaque export whose body is raw bytes. -/
structure RawExport where
  base_export : BaseExport
  data : List Nat
deriving Repr

/-- The Export Table record variants matched by the integrator. -/
inductive Export where
  | normalExport (e : NormalExport)
  | levelExport (e : LevelExport)
  | structExport (e : StructExport)
  | rawExport (e : RawExport)
deriving Repr

/-- One loaded package: name table, import table, export table. -/
structure Asset where
  name_map : List String
  imports : List Import
  exports : List Export
deriving Repr

instance : Inhabited Asset := ⟨⟨[], [], []⟩⟩

/-- Result of running embedded handler code: ok, a recoverable error
propagated with the Rust question-mark operator, or an unrecoverable Rust
panic (from unwrap/expect/out-of-bounds indexing). -/
inductive RResult (α : Type) where
  | ok (value : α)
  | err (msg : String)
  | fatal (msg : String)
deriving Repr

def RResult.bind {α β : Type} : RResult α → (α → RResult β) → RResult β
  | .ok a, f => f a
  | .err m, _ => .err m
  | .fatal m, _ => .fatal m

instance : Monad RResult where
  pure := RResult.ok
  bind := RResult.bind

def RResult.getOk {α : Type} [Inhabited α] : RResult α → α
  | .ok a => a
  | _ => default

/-! ### String and path helpers

The Rust code manipulates paths through the standard library and the regex
crate, both outside this repository; the helpers below model those operations
over the character list of a string. -/

def listSplitOnChar (c : Char) : List Char → List Char → List (List Char)
  | [], acc => [acc.reverse]
  | x :: xs, acc =>
    if x = c then acc.reverse :: listSplitOnChar c xs []
    else listSplitOnChar c xs (x :: acc)

/-- Modelled from the spec: splitting a string on a separator character, as
Rust str::split does for the dotted actor/item keys. -/
def splitOnCharS (c : Char) (s : String) : List String :=
  (listSplitOnChar c s.data []).map (fun l => ⟨l⟩)

def containsChar (c : Char) (s : String) : Bool := s.data.contains c

/-- Modelled from the spec: the final path component, as produced by the
platform path layer (Rust std::path) used by the excluded application shell. -/
def fileNameS (s : String) : String := ⟨(listSplitOnChar '/' s.data []).getLastD []⟩

/-- Modelled from the spec: the file stem (final component with its last
extension removed), as produced by Rust std::path::Path::file_stem. -/
def fileStemS (s : String) : Option String :=
  let base := fileNameS s
  if base = "" then none
  else
    match listSplitOnChar '.' base.data [] with
    | [] => none
    | [whole] => some ⟨whole⟩
    | parts => some ⟨List.intercalate ['.'] parts.dropLast⟩

/-- Modelled from the spec: the extension of the final path component, as
produced by Rust std::path::Path::extension. -/
def pathExtensionS (s : String) : Option String :=
  let base := fileNameS s
  match listSplitOnChar '.' base.data [] with
  | [] => none
  | [_] => none
  | parts => some ⟨parts.getLastD []⟩

def startsWithGame (s : String) : Bool := s.data.take 6 = "/Game/".data

def dropGamePrefixS (s : String) : String := ⟨s.data.drop 6⟩

/-- game_to_absolute (astro_integrator.rs lines 58-72): rewrites a /Game/
asset path into an archive member path, defaulting the extension to uasset. -/
def game_to_absolute (path : String) : Option String :=
  if startsWithGame path = false then none
  else
    let path_str := "Astro/Content/" ++ dropGamePrefixS path
    match pathExtensionS path_str with
    | some _ => some path_str
    | none => some (path_str ++ ".uasset")

/-! ### Name/Import/Export Table Manager

These operations live in the excluded unreal_asset codec crate; they are
modelled from spec section 4.1. -/

/-- Modelled from the spec: intern_name appends the string if absent or reuses
the existing table slot; with the force flag a fresh slot is appended
(spec 4.1).  Returns the updated asset and the slot index. -/
def Asset.add_name_reference (a : Asset) (name : String) (force : Bool) : Asset × Int :=
  match (if force then none else a.name_map.findIdx? (fun s => s = name)) with
  | some i => (a, (i : Int))
  | none => ({ a with name_map := a.name_map ++ [name] }, (a.name_map.length : Int))

/-- Modelled from the spec: add_fname interns a plain (instance 0) name and
returns the corresponding name reference (spec 4.1). -/
def Asset.add_fname (a : Asset) (s : String) : Asset × FName :=
  ((a.add_name_reference s false).1, ⟨s, 0⟩)

/-- Modelled from the spec: add_import appends a record unconditionally and
returns the new negative PackageIndex (spec 4.1). -/
def Asset.add_import (a : Asset) (imp : Import) : Asset × Int :=
  ({ a with imports := a.imports ++ [imp] }, -((a.imports.length : Int) + 1))

/-- Modelled from the spec: find_import is a linear identity search over the
Import Table under the 4-tuple, returning the first match (spec 4.1). -/
def Asset.find_import (a : Asset) (class_package class_name : FName) (outer_index : Int) (object_name : FName) : Option Int :=
  match a.imports.findIdx? (fun imp =>
      imp.class_package = class_package ∧ imp.class_name = class_name ∧
      imp.outer_index = outer_index ∧ imp.object_name = object_name) with
  | some i => some (-((i : Int) + 1))
  | none => none

/-- Modelled from the spec: get_import resolves a negative PackageIndex to the
Import Table record it denotes (spec section 3). -/
def Asset.get_import (a : Asset) (index : Int) : Option Import :=
  if index ≥ 0 then none
  else a.imports[(-index - 1).toNat]?

/-- A PackageIndex denotes an import exactly when it is negative
(unreal_asset PackageIndex::is_import, modelled from spec section 3). -/
def isImportIndex (index : Int) : Bool := index < 0

/-! ### Archive Resolver

The archive container operations live in the excluded unreal_pak and
unreal_modintegrator crates; they are modelled from spec sections 4.4 and 6.
An archive member is represented by its decoded package (the spec assumes the
codec round-trip is exact). -/

/-- An archive: an ordered collection of named members. -/
structure PakFile where
  entries : List (String × Asset)
deriving Repr

instance : Inhabited PakFile := ⟨⟨[]⟩⟩

def lookupEntries : List (String × Asset) → String → Option Asset
  | [], _ => none
  | kv :: rest, name => if kv.1 = name then some kv.2 else lookupEntries rest name

def PakFile.lookupPath (p : PakFile) (name : String) : Option Asset :=
  lookupEntries p.entries name

/-- Modelled from the spec: read(archive, version, path) decodes the member at
the path, failing when the archive has no such member (spec 6). -/
def read_asset (pak : PakFile) (_version : Int) (name : String) : Except String Asset :=
  match pak.lookupPath name with
  | some a => .ok a
  | none => .error "asset not found"

def find_asset_loop (name : String) : Nat → List PakFile → Option Nat
  | _, [] => none
  | i, p :: rest => if (p.lookupPath name).isSome then some i else find_asset_loop name (i + 1) rest

/-- Modelled from the spec: locate returns the index of the first archive in
the ordered list that contains the path (spec 6). -/
def find_asset (paks : List PakFile) (name : String) : Option Nat :=
  find_asset_loop name 0 paks

def writeEntries : List (String × Asset) → Asset → String → List (String × Asset)
  | [], a, name => [(name, a)]
  | kv :: rest, a, name => if kv.1 = name then (name, a) :: rest else kv :: writeEntries rest a name

/-- Modelled from the spec: write replaces or inserts the member at the path
(spec section 3, Archive). -/
def write_asset (pak : PakFile) (asset : Asset) (name : String) : PakFile :=
  ⟨writeEntries pak.entries asset name⟩

/-- get_asset (astro_integrator.rs lines 31-45): try the integrated archive
first; on miss, search the ordered original archives and read from the first
containing the path; error when none does. -/
def get_asset (integrated_pak : PakFile) (game_paks : List PakFile) (name : String) (version : Int) : Except String Asset :=
  match read_asset integrated_pak version name with
  | .ok asset => .ok asset
  | .error _ =>
    match find_asset game_paks name with
    | none => .error "No such ass"
    | some i => read_asset (game_paks.getD i default) version name

/-! ### Small association-map helpers (model of std::collections::HashMap
insert/get as used by the handlers; iteration order is determinized to
insertion order). -/

def upsertA {α β : Type} [DecidableEq α] : List (α × β) → α → β → List (α × β)
  | [], k, v => [(k, v)]
  | kv :: rest, k, v => if kv.1 = k then (k, v) :: rest else kv :: upsertA rest k v

def lookupA {α β : Type} [DecidableEq α] : List (α × β) → α → Option β
  | [], _ => none
  | kv :: rest, k => if kv.1 = k then some kv.2 else lookupA rest k

def Property.get_name : Property → FName
  | .boolProperty n _ _ _ => n
  | .enumProperty n _ _ _ _ => n
  | .objectProperty n _ _ _ => n
  | .softObjectProperty n _ _ _ _ => n
  | .nameProperty n _ _ _ => n
  | .guidProperty n _ _ _ => n
  | .structProperty n _ _ _ _ _ _ => n
  | .arrayProperty n _ _ _ _ => n

/-- An export's class reference resolves, through the Import Table, to an import
whose object name has the given content. -/
def classImportObjectNameIs (a : Asset) (class_index : Int) (s : String) : Bool :=
  isImportIndex class_index &&
    (((a.get_import class_index).map (fun imp => imp.object_name.content == s)).getD false)

/-! ### Mission-Trailhead Linking (handle_mission_trailheads, lines 74-178)

The per-map body is embedded below; the surrounding loops feed it the decoded
map package and the flat list of trailhead path strings from the merged
instruction set. -/

def stage_one_trailhead (st : Asset × List Property) (trailhead : String) : RResult (Asset × List Property) :=
  let asset := (st.1.add_name_reference "AstroMissionDataAsset" false).1
  let props := st.2
  match fileStemS trailhead with
  | none => .err "Invalid trailheads"
  | some soft_class_name =>
    let asset := (asset.add_name_reference trailhead false).1
    let asset := (asset.add_name_reference soft_class_name false).1
    let b1 := asset.add_import ⟨⟨"/Script/CoreUObject", 0⟩, ⟨"Package", 0⟩, 0, ⟨trailhead, 0⟩⟩
    let b2 := b1.1.add_import ⟨⟨"/Script/Astro", 0⟩, ⟨"AstroMissionDataAsset", 0⟩, b1.2, ⟨soft_class_name, 0⟩⟩
    .ok (b2.1, props ++ [.objectProperty ⟨"dummy", 0⟩ none 0 b2.2])

def stage_trailheads : Asset → List Property → List String → RResult (Asset × List Property)
  | asset, props, [] => .ok (asset, props)
  | asset, props, t :: rest =>
    (stage_one_trailhead (asset, props) t).bind fun st => stage_trailheads st.1 st.2 rest

def find_settings_export_loop (a : Asset) : Nat → List Export → Option Nat
  | _, [] => none
  | i, .normalExport e :: rest =>
    if classImportObjectNameIs a e.base_export.class_index "AstroSettings" then some i
    else find_settings_export_loop a (i + 1) rest
  | i, _ :: rest => find_settings_export_loop a (i + 1) rest

/-- The scan at lines 137-155: index of the first NormalExport whose class import
is named AstroSettings. -/
def find_settings_export (a : Asset) : Option Nat := find_settings_export_loop a 0 a.exports

def rename_staged_property (object_name : FName) (p : Property) : RResult Property :=
  match p with
  | .objectProperty _ pg di v => .ok (.objectProperty object_name pg di v)
  | _ => .fatal "Corrupted memory"

def rename_staged (object_name : FName) : List Property → RResult (List Property)
  | [] => .ok []
  | p :: rest =>
    (rename_staged_property object_name p).bind fun p2 =>
    (rename_staged object_name rest).bind fun r2 => .ok (p2 :: r2)

/-- Per-map body of handle_mission_trailheads (lines 88-171): stage one object
property per trailhead, then append them, renamed, to the AstroSettings export
when one exists; otherwise leave every export untouched. -/
def handle_mission_trailheads_for_map (asset : Asset) (trailheads : List String) : RResult Asset :=
  (stage_trailheads asset [] trailheads).bind fun st =>
  let (asset, additional_properties) := st
  match find_settings_export asset with
  | some export_index =>
    match asset.exports[export_index]? with
    | some (.normalExport e) =>
      (rename_staged e.base_export.object_name additional_properties).bind fun renamed =>
      let newExports := asset.exports.set export_index (Export.normalExport { e with properties := e.properties ++ renamed })
      .ok { asset with exports := newExports }
    | _ => .ok asset
  | none => .ok asset

/-! ### Persistent-Actor Injection (handle_persistent_actors, lines 188-685)

The per-actor loop body (lines 285-678) is embedded; the caller supplies the
already-derived (actor_path_raw, actor) string pair, the two stencil exports
extracted from the embedded LevelTemplate package, and a resolver oracle for
the original-archive lookup of the actor's own package (find_asset/read_asset,
lines 327-329). -/

structure ScsNode where
  internal_variable_name : String
  type_link : Int
  attach_parent : Option Int
  original_category : Int
deriving DecidableEq, Repr

def find_scs_export_loop (ga : Asset) : List Export → Option NormalExport
  | [] => none
  | .normalExport ne :: rest =>
    if classImportObjectNameIs ga ne.base_export.class_index "SimpleConstructionScript" then some ne
    else find_scs_export_loop ga rest
  | _ :: rest => find_scs_export_loop ga rest

/-- Lines 331-353: the first NormalExport of the source asset whose class import
is named SimpleConstructionScript. -/
def find_scs_export (ga : Asset) : Option NormalExport := find_scs_export_loop ga ga.exports

/-- Lines 356-378: positive object references collected from every AllNodes
array-of-ObjectProperty on the SCS export. -/
def collect_known_node_categories (scs_export : NormalExport) : List Int :=
  scs_export.properties.flatMap fun p =>
    match p with
    | .arrayProperty nm ty _ _ elems =>
      if ((ty.map (fun e => e.content == "ObjectProperty")).getD false) && nm.content == "AllNodes" then
        elems.filterMap fun q =>
          match q with
          | .objectProperty _ _ _ v => if v > 0 then some v else none
          | _ => none
      else []
    | _ => []

structure ScsScanState where
  internal_variable_name : String
  import_1 : Option Import
  import_2 : Option Import
  known_parents : List (Int × Int)
deriving Repr

def insert_parents (m : List (Int × Int)) (elems : List Property) (cat : Int) : List (Int × Int) :=
  elems.foldl (fun m p =>
    match p with
    | .objectProperty _ _ _ v => upsertA m v cat
    | _ => m) m

/-- Lines 409-467: one property of a source SCS_Node export. -/
def scan_scs_node_property (ga : Asset) (cat : Int) (st : ScsScanState) (p : Property) : RResult ScsScanState :=
  if (Property.get_name p).content = "InternalVariableName" then
    match p with
    | .nameProperty _ _ _ v => .ok { st with internal_variable_name := v.content }
    | _ => .ok st
  else if (Property.get_name p).content = "ComponentClass" then
    match p with
    | .objectProperty _ _ _ v =>
      match ga.get_import v with
      | none => .err "No such link"
      | some imp =>
        match ga.get_import imp.outer_index with
        | none => .err "No such link"
        | some imp2 => .ok { st with import_1 := some imp, import_2 := some imp2 }
    | _ => .ok st
  else if (Property.get_name p).content = "ChildNodes" then
    match p with
    | .arrayProperty _ ty _ _ elems =>
      if (ty.map (fun e => e.content == "ObjectProperty")).getD false then
        .ok { st with known_parents := insert_parents st.known_parents elems cat }
      else .ok st
    | _ => .ok st
  else .ok st

def scan_scs_node_properties (ga : Asset) (cat : Int) : ScsScanState → List Property → RResult ScsScanState
  | st, [] => .ok st
  | st, p :: rest =>
    (scan_scs_node_property ga cat st p).bind fun st2 => scan_scs_node_properties ga cat st2 rest

/-- Lines 469-491: the find_import/add_import branch run on the discovered
ComponentClass imports: each import is re-added exactly when the identity
lookup succeeds, and the type link falls back to the null index 0 when the
lookup of the class import fails. -/
def dedup_branch (asset : Asset) (import_1 import_2 : Import) : Asset × Int :=
  let asset :=
    match asset.find_import import_2.class_package import_2.class_name import_2.outer_index import_2.object_name with
    | some _ => (asset.add_import import_2).1
    | none => asset
  match asset.find_import import_1.class_package import_1.class_name import_1.outer_index import_1.object_name with
  | some _ => asset.add_import import_1
  | none => (asset, 0)

/-- Lines 381-495: handle one AllNodes entry — resolve the source export,
keep only SCS_Node-classed ones, scan its properties, then run the
find_import/add_import branch on the discovered ComponentClass imports
(lines 469-491) and record the node. -/
def process_scs_category (ga : Asset) (st : Asset × List ScsNode × List (Int × Int)) (known_node_category : Int) : RResult (Asset × List ScsNode × List (Int × Int)) :=
  let (asset, nodes, known_parents) := st
  match ga.exports[(known_node_category - 1).toNat]? with
  | none => .fatal "index out of bounds"
  | some (.normalExport known_normal_category) =>
    match classImportObjectNameIs ga known_normal_category.base_export.class_index "SCS_Node" with
    | false => .ok (asset, nodes, known_parents)
    | true =>
      (scan_scs_node_properties ga known_node_category ⟨"Unknown", none, none, known_parents⟩ known_normal_category.properties).bind fun scanSt =>
      let (asset, type_link) :=
        match scanSt.import_1, scanSt.import_2 with
        | some import_1, some import_2 => dedup_branch asset import_1 import_2
        | _, _ => (asset, (0 : Int))
      .ok (asset, nodes ++ [⟨scanSt.internal_variable_name, type_link, none, known_node_category⟩], scanSt.known_parents)
  | some _ => .ok (asset, nodes, known_parents)

def process_scs_categories (ga : Asset) : Asset × List ScsNode × List (Int × Int) → List Int → RResult (Asset × List ScsNode × List (Int × Int))
  | st, [] => .ok st
  | st, c :: rest => (process_scs_category ga st c).bind fun st2 => process_scs_categories ga st2 rest

/-- Lines 497-501: record each node's parent from the reversed child-parent
map. -/
def assign_attach_parents (nodes : List ScsNode) (known_parents : List (Int × Int)) : List ScsNode :=
  nodes.map fun n =>
    match lookupA known_parents n.original_category with
    | some parent => { n with attach_parent := some parent }
    | none => n

/-- Lines 330-503: SCS-graph extraction from the actor's own source package,
threading the target asset through the import branch. -/
def collect_scs_nodes (ga : Asset) (asset : Asset) : RResult (Asset × List ScsNode) :=
  match find_scs_export ga with
  | none => .ok (asset, [])
  | some scs_export =>
    (process_scs_categories ga (asset, [], []) (collect_known_node_categories scs_export)).bind fun st =>
    .ok (st.1, assign_attach_parents st.2.1 st.2.2)

/-- Lines 320-329 followed by 330-503: resolve the actor's own package via
game_to_absolute and the archive layer (the resolve oracle), then extract the
SCS graph when the package is found. -/
def collect_stage (resolve : String → Option Asset) (actor : String) (asset : Asset) : RResult (Asset × List ScsNode) :=
  match game_to_absolute actor with
  | none => .err "Invalid persistent actor path"
  | some asset_name =>
    match resolve asset_name with
    | some game_asset => collect_scs_nodes game_asset asset
    | none => .ok (asset, [])

/-- Lines 285-312: intern the actor names and build the three chained imports
package to blueprint-generated-class to class-default-object. -/
def build_persistent_actor_imports (asset : Asset) (actor_path_raw actor : String) : Asset × Int × Int × Int :=
  let asset := (asset.add_fname actor_path_raw).1
  let asset := (asset.add_fname (actor ++ "_C")).1
  let asset := (asset.add_fname ("Default__" ++ actor ++ "_C")).1
  let asset := (asset.add_fname actor).1
  let (asset, first_import) := asset.add_import ⟨⟨"/Script/CoreUObject", 0⟩, ⟨"Package", 0⟩, 0, ⟨actor_path_raw, 0⟩⟩
  let (asset, blueprint_import) := asset.add_import ⟨⟨"/Script/Engine", 0⟩, ⟨"BlueprintGeneratedClass", 0⟩, first_import, ⟨actor ++ "_C", 0⟩⟩
  let (asset, component_import) := asset.add_import ⟨⟨actor_path_raw, 0⟩, ⟨actor ++ "_C", 0⟩, blueprint_import, ⟨"Default__" ++ actor ++ "_C", 0⟩⟩
  (asset, first_import, blueprint_import, component_import)

/-- Lines 529-557: the property list stamped onto a cloned scene component. -/
def mk_scene_props (node : ScsNode) : List Property :=
  [ .boolProperty ⟨"bNetAddressable", 0⟩ none 0 true,
    .enumProperty ⟨"CreationMethod", 0⟩ none 0 (some ⟨"EComponentCreationMethod", 0⟩) ⟨"EComponentCreationMode::SimpleConstructionScript", 0⟩ ]
  ++ (match node.attach_parent with
      | some attach_parent => [Property.objectProperty ⟨"AttachParent", 0⟩ none 0 attach_parent]
      | none => [])

/-- Lines 515-560: one cloned scene-component export with identity fields
overwritten. -/
def mk_scene_export (scene_component : NormalExport) (template_category_pointer : Int) (node : ScsNode) : NormalExport :=
  { scene_component with
      base_export := { scene_component.base_export with
        class_index := node.type_link,
        object_name := ⟨node.internal_variable_name, 0⟩,
        outer_index := template_category_pointer },
      extras := [0, 0, 0, 0],
      properties := mk_scene_props node }

/-- Lines 514-596, one iteration: clone the scene stencil for a node, record
the serialized component reference and both index maps, and add the
GEN_VARIABLE import. -/
def pass1_step (scene_component : NormalExport) (actor_class_index template_category_pointer : Int)
    (st : Asset × List Export × List Property × List (String × Int) × List (Int × Int)) (node : ScsNode) :
    RResult (Asset × List Export × List Property × List (String × Int) × List (Int × Int)) :=
  let (asset, scene_exports, serialized, node_names, old_to_new) := st
  let (asset, _) := asset.add_name_reference node.internal_variable_name false
  let scene_exports := scene_exports ++ [Export.normalExport (mk_scene_export scene_component template_category_pointer node)]
  let count : Int := (asset.exports.length : Int) + (scene_exports.length : Int)
  let serialized := serialized ++ [Property.objectProperty ⟨"BlueprintCreatedComponents", 0⟩ none 0 count]
  let node_names := upsertA node_names node.internal_variable_name count
  let old_to_new := upsertA old_to_new node.original_category count
  match asset.get_import node.type_link with
  | none => .err "No such import"
  | some type_import =>
    let (asset, _) := asset.add_import ⟨⟨"/Script/Engine", 0⟩, type_import.object_name, actor_class_index, ⟨node.internal_variable_name ++ "_GEN_VARIABLE", 0⟩⟩
    .ok (asset, scene_exports, serialized, node_names, old_to_new)

def pass1 (scene_component : NormalExport) (actor_class_index template_category_pointer : Int) :
    Asset × List Export × List Property × List (String × Int) × List (Int × Int) → List ScsNode →
    RResult (Asset × List Export × List Property × List (String × Int) × List (Int × Int))
  | st, [] => .ok st
  | st, node :: rest =>
    (pass1_step scene_component actor_class_index template_category_pointer st node).bind fun st2 =>
    pass1 scene_component actor_class_index template_category_pointer st2 rest

/-- Lines 598-611, inner rewrite: an AttachParent object property is rewritten
through the old-to-new index map (the Rust map indexing panics on a missing
key). -/
def pass2_property (old_to_new : List (Int × Int)) (p : Property) : RResult Property :=
  match p with
  | .objectProperty nm pg di v =>
    if nm.content = "AttachParent" then
      match lookupA old_to_new v with
      | some nv => .ok (.objectProperty nm pg di nv)
      | none => .fatal "key not found"
    else .ok p
  | _ => .ok p

def pass2_props (old_to_new : List (Int × Int)) : List Property → RResult (List Property)
  | [] => .ok []
  | p :: rest =>
    (pass2_property old_to_new p).bind fun p2 =>
    (pass2_props old_to_new rest).bind fun r2 => .ok (p2 :: r2)

def pass2_export (old_to_new : List (Int × Int)) (e : Export) : RResult Export :=
  match e with
  | .normalExport ne =>
    (pass2_props old_to_new ne.properties).bind fun ps => .ok (.normalExport { ne with properties := ps })
  | _ => .ok e

def pass2 (old_to_new : List (Int × Int)) : List Export → RResult (List Export)
  | [] => .ok []
  | e :: rest =>
    (pass2_export old_to_new e).bind fun e2 =>
    (pass2 old_to_new rest).bind fun r2 => .ok (e2 :: r2)

/-- Lines 629-650: the actor's per-component object properties, with the
extra RootComponent reference for a DefaultSceneRoot component. -/
def actor_props_from_names : List (String × Int) → List Property
  | [] => []
  | (node_name, export_index) :: rest =>
    (if node_name = "DefaultSceneRoot" then [Property.objectProperty ⟨"RootComponent", 0⟩ none 0 export_index] else [])
    ++ [Property.objectProperty ⟨node_name, 0⟩ none 0 export_index]
    ++ actor_props_from_names rest

/-- Lines 615-650: the actor export's assembled property list. -/
def build_actor_template_props (serialized : List Property) (node_names : List (String × Int)) : List Property :=
  [ Property.boolProperty ⟨"bHidden", 0⟩ none 0 true,
    Property.arrayProperty ⟨"BlueprintCreatedComponents", 0⟩ (some ⟨"ObjectProperty", 0⟩) none 0 serialized ]
  ++ actor_props_from_names node_names

/-- Lines 314-318: the cloned actor stencil with identity fields overwritten
to the new chain and the Level slot. -/
def mk_actor_template (actor_template0 : NormalExport) (blueprint_import component_import : Int)
    (level_index : Nat) (actor : String) : NormalExport :=
  { actor_template0 with base_export := { actor_template0.base_export with
      class_index := blueprint_import,
      object_name := ⟨actor, 0⟩,
      template_index := component_import,
      outer_index := (level_index : Int) + 1 } }

/-- Lines 652-665: the actor export as finally appended, with its dependency
edges, reset extras and assembled property list. -/
def mk_actor_final (actor_template : NormalExport) (blueprint_import component_import : Int)
    (level_index : Nat) (serialized : List Property) (node_names : List (String × Int)) : NormalExport :=
  { actor_template with
      base_export := { actor_template.base_export with
        serialization_before_create_dependencies :=
          actor_template.base_export.serialization_before_create_dependencies ++ [blueprint_import, component_import],
        create_before_create_dependencies :=
          actor_template.base_export.create_before_create_dependencies ++ [(level_index : Int) + 1] },
      extras := [0, 0, 0, 0],
      properties := build_actor_template_props serialized node_names }

/-- Lines 668-677: the Level export after recording the new actor index. -/
def level_with_new_actor (level_export : LevelExport) (len : Int) : LevelExport :=
  { level_export with
      index_data := level_export.index_data ++ [len],
      normal_export := { level_export.normal_export with base_export := { level_export.normal_export.base_export with
        create_before_serialization_dependencies :=
          level_export.normal_export.base_export.create_before_serialization_dependencies ++ [len] } } }

/-- Lines 613-677: append the rewritten scene components and the actor export,
then record the actor in the Level export (the casts panic when the slot does
not hold a LevelExport). -/
def finish_injection (asset : Asset) (level_index : Nat) (scene_exports : List Export)
    (actor_final : NormalExport) : RResult Asset :=
  let asset := { asset with exports := asset.exports ++ scene_exports }
  let asset := { asset with exports := asset.exports ++ [Export.normalExport actor_final] }
  let len : Int := (asset.exports.length : Int)
  match asset.exports[level_index]? with
  | some (Export.levelExport level_export) =>
    .ok { asset with exports := asset.exports.set level_index (Export.levelExport (level_with_new_actor level_export len)) }
  | some _ => .fatal "Corrupted memory"
  | none => .fatal "index out of bounds"

/-- Lines 285-678: the whole per-actor injection body of
handle_persistent_actors as run for one actor on one target map. -/
def inject_actor (resolve : String → Option Asset) (asset0 : Asset) (level_index : Nat)
    (actor_path_raw actor : String) (actor_template0 scene_component : NormalExport) : RResult Asset :=
  let (asset, _first_import, blueprint_import, component_import) := build_persistent_actor_imports asset0 actor_path_raw actor
  let actor_template := mk_actor_template actor_template0 blueprint_import component_import level_index actor
  (collect_stage resolve actor asset).bind fun collected =>
  let (asset, all_blueprint_created_components) := collected
  let template_category_pointer : Int := (asset.exports.length : Int) + (all_blueprint_created_components.length : Int) + 1
  (pass1 scene_component actor_template.base_export.class_index template_category_pointer (asset, [], [], [], []) all_blueprint_created_components).bind
    fun st1 =>
  let (asset, scene_exports, serialized, node_names, old_to_new) := st1
  (pass2 old_to_new scene_exports).bind fun scene_exports2 =>
  finish_injection asset level_index scene_exports2
    (mk_actor_final actor_template blueprint_import component_import level_index serialized node_names)

def find_level_index_loop : Nat → List Export → Option Nat
  | _, [] => none
  | i, .levelExport _ :: _ => some i
  | i, _ :: rest => find_level_index_loop (i + 1) rest

/-- Lines 229-246: index of the first LevelExport of the target map. -/
def find_level_index (asset : Asset) : Option Nat := find_level_index_loop 0 asset.exports

/-- Lines 248-255: the structural names interned once per target map. -/
def persistent_map_fnames (asset : Asset) : Asset :=
  ["bHidden", "bNetAddressable", "CreationMethod", "EComponentCreationMethod",
   "EComponentCreationMethod::SimpleConstructionScript", "BlueprintCreatedComponents",
   "AttachParent", "RootComponent"].foldl (fun a s => (a.add_fname s).1) asset

/-- Lines 229-678 for a single map and single actor: locate the Level export,
intern the structural names, then run the injection body. -/
def handle_persistent_actor_for_map (resolve : String → Option Asset) (asset : Asset)
    (actor_path_raw actor : String) (actor_template0 scene_component : NormalExport) : RResult Asset :=
  match find_level_index asset with
  | none => .err "Unable to find Level category"
  | some level_index =>
    inject_actor resolve (persistent_map_fnames asset) level_index actor_path_raw actor actor_template0 scene_component

/-! ### Linked-Actor-Component Attachment: per-component import chain
(handle_linked_actor_components, lines 860-890)

Only the name interning and the three imports built for each attached
component are needed by the claims below; the caller supplies the derived
(component_path, component) string pair. -/

def build_linked_component_imports (asset : Asset) (component_path component : String) : Asset × Int × Int × Int :=
  let asset := (asset.add_fname component_path).1
  let (asset, _) := asset.add_name_reference ("Default__" ++ component ++ "_C") false
  let (asset, _) := asset.add_name_reference (component ++ "_C") false
  let (asset, _) := asset.add_name_reference (component ++ "_GEN_VARIABLE") false
  let asset := (asset.add_fname component).1
  let asset := (asset.add_fname "SCS_Node").1
  let (asset, package_import) := asset.add_import ⟨⟨"/Script/CoreUObject", 0⟩, ⟨"Package", 0⟩, 0, ⟨component_path, 0⟩⟩
  let (asset, blueprint_generated_class_import) := asset.add_import ⟨⟨"/Script/Engine", 0⟩, ⟨"BlueprintGeneratedClass", 0⟩, package_import, ⟨component ++ "_C", 0⟩⟩
  let (asset, default_import) := asset.add_import ⟨⟨component_path, 0⟩, ⟨component ++ "_C", 0⟩, package_import, ⟨"Default__" ++ component ++ "_C", 0⟩⟩
  (asset, package_import, blueprint_generated_class_import, default_import)

/-! ### Item-List-Entry Appending (handle_item_list_entries, lines 1099-1305)

The per-asset body is embedded.  The merged instruction set new_items is
represented as an association list (first-level key: target asset path,
second-level key: property/array key); the scan receives the list of
first-level keys, exactly as the source's inner loop iterates the keys of
new_items. -/

abbrev ItemEntry := Nat × String × String

abbrev ItemMap := List (String × List ItemEntry)

/-- HashMap entry(key).or_insert(Vec).push(v): append to the key's list,
creating the entry on first use. -/
def pushEntry : ItemMap → String → ItemEntry → ItemMap
  | [], k, v => [(k, [v])]
  | (k0, l0) :: rest, k, v =>
    if k0 = k then (k0, l0 ++ [v]) :: rest else (k0, l0) :: pushEntry rest k v

/-- Lines 1153-1174: derive the array name an instruction key selects on this
export, with the class-qualified dotted form; errors when the export's class import
cannot be resolved. -/
def item_entry_matches (asset : Asset) (ne : NormalExport) (key : String) : RResult (Option String) :=
  if containsChar '.' key then
    let split := splitOnCharS '.' key
    let category_name := split.headD ""
    (if isImportIndex ne.base_export.class_index then
       match asset.get_import ne.base_export.class_index with
       | some imp => RResult.ok imp.object_name.content
       | none => RResult.err "No such import"
     else RResult.ok "").bind fun object_name =>
    if object_name ≠ category_name then .ok none
    else .ok (some (split.getD 1 ""))
  else .ok (some key)

/-- Lines 1176-1194: whether one instruction key selects this property of
this export, yielding its matched-array entry (and erroring on a matched
array without a declared element type). -/
def scan_key_step (asset : Asset) (ne : NormalExport) (i : Nat) (p : Property) (key : String) : RResult (Option ItemEntry) :=
  (item_entry_matches asset ne key).bind fun matched =>
  match matched, p with
  | some arr_name, .arrayProperty nm ty _ _ _ =>
    if nm.content = arr_name then
      match ty with
      | some t => .ok (some (i, t.content, key))
      | none => .err "Unknown array type"
    else .ok none
  | _, _ => .ok none

/-- Lines 1152-1195, innermost loop: try every instruction key against one
property of one export, recording matches. -/
def scan_push_keys (asset : Asset) (ne : NormalExport) (i : Nat) (p : Property) : List String → ItemMap → RResult ItemMap
  | [], m => .ok m
  | key :: rest, m =>
    (scan_key_step asset ne i p key).bind fun found =>
    match found with
    | some e => scan_push_keys asset ne i p rest (pushEntry m key e)
    | none => scan_push_keys asset ne i p rest m

def scan_props (asset : Asset) (ne : NormalExport) (i : Nat) (keys : List String) : List Property → ItemMap → RResult ItemMap
  | [], m => .ok m
  | p :: rest, m =>
    (scan_push_keys asset ne i p keys m).bind fun m2 => scan_props asset ne i keys rest m2

def scan_exports (asset : Asset) (keys : List String) : Nat → List Export → ItemMap → RResult ItemMap
  | _, [], m => .ok m
  | i, Export.normalExport ne :: rest, m =>
    (scan_props asset ne i keys ne.properties m).bind fun m2 => scan_exports asset keys (i + 1) rest m2
  | i, _ :: rest, m => scan_exports asset keys (i + 1) rest m

/-- Lines 1146-1198: build item_types_property, the per-asset matched-array
map, by scanning every NormalExport's properties against every first-level
key of the merged instruction map. -/
def scan_item_arrays (asset : Asset) (keys : List String) : RResult ItemMap :=
  scan_exports asset keys 0 asset.exports []

/-- Lines 1206-1230: derive (real_name, class_name, soft_class_name) from the
item path. -/
def compute_item_names (item_path : String) : RResult (String × String × String) :=
  if containsChar '.' item_path then
    let split := splitOnCharS '.' item_path
    .ok (split.headD "", split.getD 1 "", split.getD 1 "")
  else
    match fileStemS item_path with
    | none => .err "Invalid item_path"
    | some stem => .ok (item_path, stem ++ "_C", stem)

/-- Lines 1241-1260: build (once per item, memoised through the Option) the
package import and blueprint-generated-class import for the item. -/
def item_bgc_imports (asset : Asset) (bgc : Option Int) (real_name class_name : String) : Asset × Int :=
  match bgc with
  | none =>
    let asset := (asset.add_fname real_name).1
    let asset := (asset.add_fname class_name).1
    let built := asset.add_import ⟨⟨"/Script/CoreUObject", 0⟩, ⟨"Package", 0⟩, 0, ⟨real_name, 0⟩⟩
    built.1.add_import ⟨⟨"/Script/Engine", 0⟩, ⟨"BlueprintGeneratedClass", 0⟩, built.2, ⟨class_name, 0⟩⟩
  | some b => (asset, b)

/-- Lines 1237-1297: handle one matched array entry for one item, threading
the once-per-item blueprint-generated-class import chain option. -/
def process_matched_entry (asset : Asset) (bgc : Option Int) (real_name class_name soft_class_name : String) (entry : ItemEntry) : RResult (Asset × Option Int) :=
  let (export_index, array_type, name) := entry
  if array_type = "ObjectProperty" then
    let built := item_bgc_imports asset bgc real_name class_name
    let asset := built.1
    let b := built.2
    match asset.exports[export_index]? with
    | some (Export.normalExport ne) =>
      let newExports := asset.exports.set export_index
        (Export.normalExport { ne with properties := ne.properties ++ [Property.objectProperty ⟨name, 0⟩ none 0 b] })
      .ok ({ asset with exports := newExports }, some b)
    | _ => .fatal "Corrupted memory"
  else if array_type = "SoftObjectProperty" then
    let asset := ((asset.add_fname real_name).1.add_name_reference (real_name ++ "." ++ soft_class_name) false).1
    match asset.exports[export_index]? with
    | some (Export.normalExport ne) =>
      let newExports := asset.exports.set export_index
        (Export.normalExport { ne with properties := ne.properties ++ [Property.softObjectProperty ⟨name, 0⟩ none 0 ⟨real_name ++ "." ++ soft_class_name, 0⟩ 0] })
      .ok ({ asset with exports := newExports }, bgc)
    | _ => .fatal "Corrupted memory"
  else .ok (asset, bgc)

def process_matched_entries (real_name class_name soft_class_name : String) : Asset × Option Int → List ItemEntry → RResult (Asset × Option Int)
  | st, [] => .ok st
  | st, entry :: rest =>
    (process_matched_entry st.1 st.2 real_name class_name soft_class_name entry).bind fun st2 =>
    process_matched_entries real_name class_name soft_class_name st2 rest

/-- Lines 1205-1298: handle one item path — derive its names, then look the
item path itself up in the matched-array map (the Rust unwrap on that lookup
panics when the path is not a key of the map). -/
def process_item_path (asset : Asset) (m : ItemMap) (item_path : String) : RResult Asset :=
  (compute_item_names item_path).bind fun names =>
  let (real_name, class_name, soft_class_name) := names
  match lookupA m item_path with
  | none => .fatal "called Option::unwrap on a None value"
  | some entryList =>
    (process_matched_entries real_name class_name soft_class_name (asset, none) entryList).bind fun st =>
    .ok st.1

def process_item_paths (m : ItemMap) : Asset → List String → RResult Asset
  | asset, [] => .ok asset
  | asset, p :: rest => (process_item_path asset m p).bind fun a2 => process_item_paths m a2 rest

/-- Lines 1200-1299: handle one second-level instruction entry (name, paths);
a name with no matched-array entry is skipped. -/
def process_item_key (asset : Asset) (m : ItemMap) (name : String) (paths : List String) : RResult Asset :=
  if (lookupA m name).isSome = false then .ok asset
  else process_item_paths m asset paths

def process_item_entries (m : ItemMap) : Asset → List (String × List String) → RResult Asset
  | asset, [] => .ok asset
  | asset, (name, paths) :: rest =>
    (process_item_key asset m name paths).bind fun a2 => process_item_entries m a2 rest

/-- Lines 1146-1299: the whole per-asset body of handle_item_list_entries:
scan, then process every second-level entry of the current asset. -/
def handle_item_list_for_asset (asset : Asset) (all_keys : List String) (entries : List (String × List String)) : RResult Asset :=
  (scan_item_arrays asset all_keys).bind fun m =>
  process_item_entries m asset entries

/-- Lines 1146-1302: per-asset body followed by the write-back of the mutated
package into the integrated archive. -/
def handle_item_asset_and_write (pak : PakFile) (asset : Asset) (all_keys : List String) (entries : List (String × List String)) (path : String) : RResult PakFile :=
  (handle_item_list_for_asset asset all_keys entries).bind fun a2 =>
  .ok (write_asset pak a2 path)

/-! ### Helper definitions used by the theorem statements -/

def lookupD (m : ItemMap) (k : String) : List ItemEntry := (lookupA m k).getD []

/-- The pure (error-free) reading of item_entry_matches, total on assets whose
class imports resolve (the scan errors out otherwise). -/
def pure_item_match (asset : Asset) (ne : NormalExport) (key : String) : Option String :=
  if containsChar '.' key then
    let split := splitOnCharS '.' key
    let object_name :=
      if isImportIndex ne.base_export.class_index then
        ((asset.get_import ne.base_export.class_index).map (fun imp => imp.object_name.content)).getD ""
      else ""
    if object_name ≠ split.headD "" then none else some (split.getD 1 "")
  else some key

/-- The matched-array entry one (export, property, key) triple contributes. -/
def entry_of (asset : Asset) (ne : NormalExport) (i : Nat) (p : Property) (key : String) : Option ItemEntry :=
  match pure_item_match asset ne key, p with
  | some arr_name, .arrayProperty nm ty _ _ _ =>
    if nm.content = arr_name then ty.map (fun t => (i, t.content, key)) else none
  | _, _ => none

def selected_from (asset : Asset) (key : String) : Nat → List Export → List ItemEntry
  | _, [] => []
  | i, Export.normalExport ne :: rest =>
    ne.properties.filterMap (fun p => entry_of asset ne i p key) ++ selected_from asset key (i + 1) rest
  | i, _ :: rest => selected_from asset key (i + 1) rest

/-- The set of array properties one key selects, written out extensionally:
every property of every NormalExport whose name (respecting the optional
class-qualified dotted form) matches the key. -/
def selected_entries_for_key (asset : Asset) (key : String) : List ItemEntry :=
  selected_from asset key 0 asset.exports

/-- Every AttachParent object property among the given properties points
inside the given index interval. -/
def attachValuesWithin (lo hi : Int) (props : List Property) : Bool :=
  props.all fun p =>
    match p with
    | .objectProperty nm _ _ v =>
      if nm.content == "AttachParent" then decide (lo < v) && decide (v ≤ hi) else true
    | _ => true

def Export.base_of : Export → BaseExport
  | .normalExport e => e.base_export
  | .levelExport e => e.normal_export.base_export
  | .structExport e => e.normal_export.base_export
  | .rawExport e => e.base_export

def classIndexInRange (numImports : Nat) (b : BaseExport) : Bool :=
  if b.class_index < 0 then decide ((-b.class_index) ≤ (numImports : Int)) else true

/-- Spec section 3 invariant: every class reference that denotes an import
resolves inside the Import Table. -/
def importRefsWF (a : Asset) : Bool :=
  a.exports.all (fun e => classIndexInRange a.imports.length (Export.base_of e))

/-- The export index recorded in a matched-array entry denotes a NormalExport
of the asset. -/
def entryOkIn (a : Asset) (e : ItemEntry) : Prop :=
  ∃ ne, a.exports[e.1]? = some (Export.normalExport ne)

def mapOkIn (a : Asset) (m : ItemMap) : Prop :=
  ∀ k l, lookupA m k = some l → ∀ e ∈ l, entryOkIn a e

/-- The item-path name derivation (lines 1206-1230) succeeds on this path. -/
def item_path_wf (p : String) : Bool := containsChar '.' p || (fileStemS p).isSome

/-- The PackageIndex points at an AstroMissionDataAsset import of the asset. -/
def isMissionRefIn (a : Asset) (v : Int) : Prop :=
  ∃ imp, a.get_import v = some imp ∧ imp.class_package = ⟨"/Script/Astro", 0⟩ ∧
    imp.class_name = ⟨"AstroMissionDataAsset", 0⟩

/-! ### Concrete packages used by the witnesses and counterexamples -/

def mkNormal (ci : Int) (nm : String) (props : List Property) : NormalExport :=
  ⟨⟨ci, ⟨nm, 0⟩, 0, 0, 0, [], [], [], []⟩, [], props⟩

def actorStencil : NormalExport :=
  ⟨⟨7, ⟨"ActorStencil", 0⟩, 3, 9, 0, [], [], [-50], [-60]⟩, [1, 2], []⟩

def sceneStencil : NormalExport := ⟨⟨0, ⟨"SceneStencil", 0⟩, 0, 0, 0, [], [], [], []⟩, [5], []⟩

def levelStencil : LevelExport := ⟨mkNormal 0 "PersistentLevel" [], [7]⟩

def pakAssetA : Asset := ⟨["A"], [], []⟩

def pakAssetB : Asset := ⟨["B"], [], []⟩

def pakAssetC : Asset := ⟨["C"], [], []⟩

def integratedPakW : PakFile := ⟨[("p", pakAssetA)]⟩

def gamePaksW : List PakFile := [⟨[("z", pakAssetC)]⟩, ⟨[("q", pakAssetB)]⟩]

def mapAssetSimple : Asset := ⟨[], [], [Export.levelExport levelStencil]⟩

def resolveNone : String → Option Asset := fun _ => none

def c1_out : Asset :=
  (inject_actor resolveNone mapAssetSimple 0 "/Game/Mods/TestActor" "/Game/TestActor" actorStencil sceneStencil).getOk

def gaImportPkg : Import := ⟨⟨"/Script/CoreUObject", 0⟩, ⟨"Package", 0⟩, 0, ⟨"/Script/Engine", 0⟩⟩

def gaImportClass : Import := ⟨⟨"/Script/CoreUObject", 0⟩, ⟨"Class", 0⟩, -1, ⟨"SceneComponent", 0⟩⟩

def gaImportScs : Import := ⟨⟨"/Script/Engine", 0⟩, ⟨"Class", 0⟩, 0, ⟨"SimpleConstructionScript", 0⟩⟩

def gaImportNode : Import := ⟨⟨"/Script/Engine", 0⟩, ⟨"Class", 0⟩, 0, ⟨"SCS_Node", 0⟩⟩

def gameImports : List Import := [gaImportPkg, gaImportClass, gaImportScs, gaImportNode]

def gaScsExport : NormalExport :=
  mkNormal (-3) "SimpleConstructionScript_0"
    [Property.arrayProperty ⟨"AllNodes", 0⟩ (some ⟨"ObjectProperty", 0⟩) none 0
      [Property.objectProperty ⟨"n", 0⟩ none 0 2, Property.objectProperty ⟨"n", 0⟩ none 0 3]]

def gaNodeA : NormalExport :=
  mkNormal (-4) "NodeA"
    [Property.nameProperty ⟨"InternalVariableName", 0⟩ none 0 ⟨"CompA", 0⟩,
     Property.objectProperty ⟨"ComponentClass", 0⟩ none 0 (-2),
     Property.arrayProperty ⟨"ChildNodes", 0⟩ (some ⟨"ObjectProperty", 0⟩) none 0
       [Property.objectProperty ⟨"c", 0⟩ none 0 3]]

def gaNodeB : NormalExport :=
  mkNormal (-4) "NodeB"
    [Property.nameProperty ⟨"InternalVariableName", 0⟩ none 0 ⟨"CompB", 0⟩,
     Property.objectProperty ⟨"ComponentClass", 0⟩ none 0 (-2)]

def gameAssetTwoNodes : Asset :=
  ⟨[], gameImports, [Export.normalExport gaScsExport, Export.normalExport gaNodeA, Export.normalExport gaNodeB]⟩

def mapAssetTwo : Asset :=
  ⟨[], [gaImportPkg, gaImportClass],
   [Export.levelExport levelStencil, Export.normalExport (mkNormal 0 "Filler" [])]⟩

def resolveTwoNodes : String → Option Asset :=
  fun s => if s = "Astro/Content/ActorB.uasset" then some gameAssetTwoNodes else none

def c2_out : Asset :=
  (inject_actor resolveTwoNodes mapAssetTwo 0 "/Game/ActorB" "/Game/ActorB" actorStencil sceneStencil).getOk

def gaScsOneNode : NormalExport :=
  mkNormal (-3) "SimpleConstructionScript_0"
    [Property.arrayProperty ⟨"AllNodes", 0⟩ (some ⟨"ObjectProperty", 0⟩) none 0
      [Property.objectProperty ⟨"n", 0⟩ none 0 2]]

def gaNodeOnly : NormalExport :=
  mkNormal (-4) "NodeOnly" [Property.objectProperty ⟨"ComponentClass", 0⟩ none 0 (-2)]

def gameAssetOneNode : Asset :=
  ⟨[], gameImports, [Export.normalExport gaScsOneNode, Export.normalExport gaNodeOnly]⟩

def c3TargetAsset : Asset := ⟨[], [gaImportPkg, gaImportClass], []⟩

def c3_result : Asset :=
  match collect_scs_nodes gameAssetOneNode c3TargetAsset with
  | .ok st => st.1
  | _ => default

def c7Asset : Asset :=
  ⟨[], [],
   [Export.normalExport (mkNormal 0 "Data"
     [Property.arrayProperty ⟨"Entries", 0⟩ (some ⟨"ObjectProperty", 0⟩) none 0 []])]⟩

def c8Asset : Asset := ⟨[], [], [Export.normalExport (mkNormal 0 "Data" [])]⟩

def c8Map : ItemMap :=
  [("/Game/Item.Item_C", [(0, "ObjectProperty", "K1"), (0, "ObjectProperty", "K2")])]

def c8_out1 : Asset := (process_item_path c8Asset c8Map "/Game/Item.Item_C").getOk

def c8_out2 : Asset :=
  (process_item_key c8Asset c8Map "/Game/Item.Item_C" ["/Game/Item.Item_C", "/Game/Item.Item_C"]).getOk

def c9SettingsImport : Import := ⟨⟨"/Script/Astro", 0⟩, ⟨"Class", 0⟩, 0, ⟨"AstroSettings", 0⟩⟩

def c9Asset : Asset :=
  ⟨[], [c9SettingsImport],
   [Export.normalExport (mkNormal (-1) "AstroSettingsExport" [Property.boolProperty ⟨"x", 0⟩ none 0 true])]⟩

def c9_out : Asset := (handle_mission_trailheads_for_map c9Asset ["/Game/Missions/M1"]).getOk

def c10Asset : Asset :=
  ⟨[], [],
   [Export.normalExport (mkNormal 0 "Data"
     [Property.arrayProperty ⟨"K", 0⟩ (some ⟨"ObjectProperty", 0⟩) none 0 []])]⟩

def c10Map : ItemMap := [("K", [(0, "ObjectProperty", "K")])]

/-! ## Theorems -/

theorem RResult.bind_ok {α β : Type} {x : RResult α} {f : α → RResult β} {b : β}
    (h : x.bind f = .ok b) : ∃ a, x = .ok a ∧ f a = .ok b := by
  cases x with
  | ok a => exact ⟨a, rfl, h⟩
  | err m => simp [RResult.bind] at h
  | fatal m => simp [RResult.bind] at h

theorem lookupEntries_write_self (l : List (String × Asset)) (a : Asset) (name : String) :
    lookupEntries (writeEntries l a name) name = some a := by
  induction l with
  | nil => simp [writeEntries, lookupEntries]
  | cons kv rest ih =>
    by_cases h : kv.1 = name
    · simp [writeEntries, h, lookupEntries]
    · simp [writeEntries, h, lookupEntries, ih]

theorem find_asset_loop_sound (name : String) :
    ∀ (l : List PakFile) (n i : Nat), find_asset_loop name n l = some i →
      ∃ j p, i = n + j ∧ l[j]? = some p ∧ (p.lookupPath name).isSome = true := by
  intro l
  induction l with
  | nil => intro n i h; simp [find_asset_loop] at h
  | cons p rest ih =>
    intro n i h
    by_cases hp : (p.lookupPath name).isSome
    · refine ⟨0, p, ?_, by simp, hp⟩
      simp [find_asset_loop, hp] at h
      omega
    · simp only [find_asset_loop, hp] at h
      simp only [Bool.false_eq_true, if_false] at h
      obtain ⟨j, q, hj, hq, hs⟩ := ih (n + 1) i h
      exact ⟨j + 1, q, by omega, by simpa using hq, hs⟩

theorem add_name_reference_fst_imports (a : Asset) (s : String) (f : Bool) :
    ((a.add_name_reference s f).1).imports = a.imports := by
  unfold Asset.add_name_reference
  split <;> rfl

theorem add_name_reference_fst_exports (a : Asset) (s : String) (f : Bool) :
    ((a.add_name_reference s f).1).exports = a.exports := by
  unfold Asset.add_name_reference
  split <;> rfl

theorem add_fname_fst_imports (a : Asset) (s : String) :
    ((a.add_fname s).1).imports = a.imports := by
  simp [Asset.add_fname, add_name_reference_fst_imports]

theorem add_fname_fst_exports (a : Asset) (s : String) :
    ((a.add_fname s).1).exports = a.exports := by
  simp [Asset.add_fname, add_name_reference_fst_exports]

theorem get_import_eq_getElem (a : Asset) (n : Nat) :
    a.get_import (-((n : Int) + 1)) = a.imports[n]? := by
  unfold Asset.get_import
  rw [if_neg (by omega)]
  congr 1
  omega

/-- C4: asset resolution tries the integrated archive first, then the first
original archive containing the path, and errors when none contains it; after
a write-back under a path, resolution returns the newly written package. -/
theorem get_asset_resolution_order (ip : PakFile) (gps : List PakFile) (name : String) (v : Int) :
    (∀ a, ip.lookupPath name = some a → get_asset ip gps name v = .ok a) ∧
    (ip.lookupPath name = none → ∀ i, find_asset gps name = some i →
      ∃ b, (gps.getD i default).lookupPath name = some b ∧ get_asset ip gps name v = .ok b) ∧
    (ip.lookupPath name = none → find_asset gps name = none →
      get_asset ip gps name v = .error "No such ass") ∧
    (∀ a, get_asset (write_asset ip a name) gps name v = .ok a) := by
  refine ⟨?_, ?_, ?_, ?_⟩
  · intro a h
    simp [get_asset, read_asset, h]
  · intro h i hf
    obtain ⟨j, p, hij, hj, hs⟩ := find_asset_loop_sound name gps 0 i hf
    obtain ⟨b, hb⟩ := Option.isSome_iff_exists.mp hs
    have hget : gps.getD i default = p := by
      subst hij
      simp [List.getD_eq_getElem?_getD, hj]
    have hik : gps[i]? = some p := by
      subst hij
      simpa using hj
    refine ⟨b, by rw [hget]; exact hb, ?_⟩
    simp [get_asset, read_asset, h, hf, List.getD_eq_getElem?_getD, hik, hb]
  · intro h hf
    simp [get_asset, read_asset, h, hf]
  · intro a
    simp [get_asset, read_asset, write_asset, PakFile.lookupPath, lookupEntries_write_self]

/-- Witness for C4: a path present in the integrated archive, a path present
only in the second original archive, a missing path, and a write-back. -/
theorem get_asset_resolution_order_witness :
    (integratedPakW.lookupPath "p" = some pakAssetA ∧ get_asset integratedPakW gamePaksW "p" 23 = .ok pakAssetA) ∧
    (integratedPakW.lookupPath "q" = none ∧ find_asset gamePaksW "q" = some 1 ∧
      get_asset integratedPakW gamePaksW "q" 23 = .ok pakAssetB) ∧
    (get_asset integratedPakW gamePaksW "r" 23 = .error "No such ass") ∧
    (get_asset (write_asset integratedPakW pakAssetB "q") gamePaksW "q" 23 = .ok pakAssetB) := by
  have h := get_asset_resolution_order integratedPakW gamePaksW "p" 23
  have h1 := h.1 pakAssetA rfl
  have hq := get_asset_resolution_order integratedPakW gamePaksW "q" 23
  obtain ⟨b, hb1, hb2⟩ := hq.2.1 rfl 1 rfl
  have hbval : b = pakAssetB := by
    have : some b = some pakAssetB := by rw [← hb1]; rfl
    exact Option.some.inj this.symm |>.symm
  have hr := (get_asset_resolution_order integratedPakW gamePaksW "r" 23).2.2.1 rfl rfl
  have hw := (get_asset_resolution_order integratedPakW gamePaksW "q" 23).2.2.2 pakAssetB
  exact ⟨⟨rfl, h1⟩, ⟨rfl, rfl, hbval ▸ hb2⟩, hr, hw⟩

theorem build_persistent_actor_imports_spec (a : Asset) (pr ac : String) :
    (build_persistent_actor_imports a pr ac).1.imports =
      a.imports ++
        [⟨⟨"/Script/CoreUObject", 0⟩, ⟨"Package", 0⟩, 0, ⟨pr, 0⟩⟩,
         ⟨⟨"/Script/Engine", 0⟩, ⟨"BlueprintGeneratedClass", 0⟩, -((a.imports.length : Int) + 1), ⟨ac ++ "_C", 0⟩⟩,
         ⟨⟨pr, 0⟩, ⟨ac ++ "_C", 0⟩, -((a.imports.length : Int) + 2), ⟨"Default__" ++ ac ++ "_C", 0⟩⟩] ∧
    (build_persistent_actor_imports a pr ac).2.1 = -((a.imports.length : Int) + 1) ∧
    (build_persistent_actor_imports a pr ac).2.2.1 = -((a.imports.length : Int) + 2) ∧
    (build_persistent_actor_imports a pr ac).2.2.2 = -((a.imports.length : Int) + 3) := by
  unfold build_persistent_actor_imports Asset.add_import
  simp [add_fname_fst_imports]
  and_intros <;> omega

theorem build_linked_component_imports_spec (a : Asset) (cp comp : String) :
    (build_linked_component_imports a cp comp).1.imports =
      a.imports ++
        [⟨⟨"/Script/CoreUObject", 0⟩, ⟨"Package", 0⟩, 0, ⟨cp, 0⟩⟩,
         ⟨⟨"/Script/Engine", 0⟩, ⟨"BlueprintGeneratedClass", 0⟩, -((a.imports.length : Int) + 1), ⟨comp ++ "_C", 0⟩⟩,
         ⟨⟨cp, 0⟩, ⟨comp ++ "_C", 0⟩, -((a.imports.length : Int) + 1), ⟨"Default__" ++ comp ++ "_C", 0⟩⟩] ∧
    (build_linked_component_imports a cp comp).2.1 = -((a.imports.length : Int) + 1) ∧
    (build_linked_component_imports a cp comp).2.2.1 = -((a.imports.length : Int) + 2) ∧
    (build_linked_component_imports a cp comp).2.2.2 = -((a.imports.length : Int) + 3) := by
  unfold build_linked_component_imports Asset.add_import
  simp [add_fname_fst_imports, add_name_reference_fst_imports]
  and_intros <;> omega

theorem get_import_append3 (x y z : Import) (a' : Asset) (A : List Import)
    (h : a'.imports = A ++ [x, y, z]) :
    a'.get_import (-((A.length : Int) + 1)) = some x ∧
    a'.get_import (-((A.length : Int) + 2)) = some y ∧
    a'.get_import (-((A.length : Int) + 3)) = some z := by
  refine ⟨?_, ?_, ?_⟩
  · have e := get_import_eq_getElem a' A.length
    rw [h] at e
    rw [e, List.getElem?_append_right (le_refl _)]
    simp
  · have e := get_import_eq_getElem a' (A.length + 1)
    rw [h] at e
    rw [show (-((A.length : Int) + 2)) = -(((A.length + 1 : Nat) : Int) + 1) by push_cast; ring]
    rw [e, List.getElem?_append_right (by omega)]
    simp
  · have e := get_import_eq_getElem a' (A.length + 2)
    rw [h] at e
    rw [show (-((A.length : Int) + 3)) = -(((A.length + 2 : Nat) : Int) + 1) by push_cast; ring]
    rw [e, List.getElem?_append_right (by omega)]
    simp

/-- C6 (amended): in Persistent-Actor Injection the three imports form the
chain package to blueprint-generated-class to class-default-object (the
blueprint import's outer is the package import, the Default import's outer is
the blueprint import); in Linked-Actor-Component Attachment the blueprint import
's outer is the package import, but the Default import's outer is the
package import as well, not the blueprint-generated-class import. -/
theorem import_chain_outer_structure (a : Asset) (pr ac cp comp : String) :
    (∃ bimp dimp,
      (build_persistent_actor_imports a pr ac).1.get_import (build_persistent_actor_imports a pr ac).2.2.1 = some bimp ∧
      bimp.outer_index = (build_persistent_actor_imports a pr ac).2.1 ∧
      (build_persistent_actor_imports a pr ac).1.get_import (build_persistent_actor_imports a pr ac).2.2.2 = some dimp ∧
      dimp.outer_index = (build_persistent_actor_imports a pr ac).2.2.1) ∧
    (∃ bimp2 dimp2,
      (build_linked_component_imports a cp comp).1.get_import (build_linked_component_imports a cp comp).2.2.1 = some bimp2 ∧
      bimp2.outer_index = (build_linked_component_imports a cp comp).2.1 ∧
      (build_linked_component_imports a cp comp).1.get_import (build_linked_component_imports a cp comp).2.2.2 = some dimp2 ∧
      dimp2.outer_index = (build_linked_component_imports a cp comp).2.1) := by
  obtain ⟨him, hfst, hbp, hcdo⟩ := build_persistent_actor_imports_spec a pr ac
  obtain ⟨g1, g2, g3⟩ := get_import_append3 _ _ _ _ _ him
  obtain ⟨him2, hfst2, hbp2, hcdo2⟩ := build_linked_component_imports_spec a cp comp
  obtain ⟨k1, k2, k3⟩ := get_import_append3 _ _ _ _ _ him2
  constructor
  · refine ⟨⟨⟨"/Script/Engine", 0⟩, ⟨"BlueprintGeneratedClass", 0⟩, -((a.imports.length : Int) + 1), ⟨ac ++ "_C", 0⟩⟩,
            ⟨⟨pr, 0⟩, ⟨ac ++ "_C", 0⟩, -((a.imports.length : Int) + 2), ⟨"Default__" ++ ac ++ "_C", 0⟩⟩, ?_, ?_, ?_, ?_⟩
    · rw [hbp]; exact g2
    · simp [hfst]
    · rw [hcdo]; exact g3
    · simp [hbp]
  · refine ⟨⟨⟨"/Script/Engine", 0⟩, ⟨"BlueprintGeneratedClass", 0⟩, -((a.imports.length : Int) + 1), ⟨comp ++ "_C", 0⟩⟩,
            ⟨⟨cp, 0⟩, ⟨comp ++ "_C", 0⟩, -((a.imports.length : Int) + 1), ⟨"Default__" ++ comp ++ "_C", 0⟩⟩, ?_, ?_, ?_, ?_⟩
    · rw [hbp2]; exact k2
    · simp [hfst2]
    · rw [hcdo2]; exact k3
    · simp [hfst2]

/-- C6 counterexample: attaching component /Game/Comp to an empty asset builds
the package import at -1, the blueprint-generated-class import at -2 and the
class-default-object import at -3, and the class-default-object import's outer
reference is -1 (the package import), not -2 (the blueprint-generated-class import
) as the claim states. -/
theorem linked_default_import_outer_counterexample :
    (build_linked_component_imports ⟨[], [], []⟩ "/Game/Comp" "Comp").2.1 = -1 ∧
    (build_linked_component_imports ⟨[], [], []⟩ "/Game/Comp" "Comp").2.2.1 = -2 ∧
    (build_linked_component_imports ⟨[], [], []⟩ "/Game/Comp" "Comp").2.2.2 = -3 ∧
    (build_linked_component_imports ⟨[], [], []⟩ "/Game/Comp" "Comp").1.get_import (-3) =
      some ⟨⟨"/Game/Comp", 0⟩, ⟨"Comp_C", 0⟩, -1, ⟨"Default__Comp_C", 0⟩⟩ ∧
    ((-1 : Int) ≠ (-2 : Int)) := by
  exact ⟨rfl, rfl, rfl, rfl, by decide⟩

/-- C3: evaluating the find_import/add_import branch of the SCS extraction
(lines 469-491) on a map whose Import Table already holds the discovered
ComponentClass import 4-tuples.  The branch re-adds both imports because the
lookups succeed, leaving the Import Table with two entries per 4-tuple — the
check-then-insert sequence duplicates instead of deduplicating. -/
theorem import_dedup_branch_duplicates :
    collect_scs_nodes gameAssetOneNode c3TargetAsset =
      .ok (c3_result, [⟨"Unknown", -4, none, 2⟩]) ∧
    c3_result.imports = [gaImportPkg, gaImportClass, gaImportPkg, gaImportClass] ∧
    c3TargetAsset.imports.countP (fun imp => imp == gaImportPkg) = 1 ∧
    c3_result.imports.countP (fun imp => imp == gaImportPkg) = 2 ∧
    c3_result.imports.countP (fun imp => imp == gaImportClass) = 2 := by
  refine ⟨rfl, rfl, rfl, rfl, rfl⟩

theorem add_import_fst_exports (a : Asset) (imp : Import) : ((a.add_import imp).1).exports = a.exports := rfl

theorem dedup_branch_fst_exports (a : Asset) (i1 i2 : Import) :
    ((dedup_branch a i1 i2).1).exports = a.exports := by
  unfold dedup_branch
  split <;> (dsimp only; split <;> simp [Asset.add_import])

theorem process_scs_category_exports {ga : Asset} {st st' : Asset × List ScsNode × List (Int × Int)} {c : Int}
    (h : process_scs_category ga st c = .ok st') : st'.1.exports = st.1.exports := by
  obtain ⟨asset, nodes, kp⟩ := st
  unfold process_scs_category at h
  cases hge : ga.exports[(c - 1).toNat]? with
  | none => rw [hge] at h; simp at h
  | some ex =>
    rw [hge] at h
    cases ex with
    | normalExport kn =>
      dsimp only at h
      cases hscs : classImportObjectNameIs ga kn.base_export.class_index "SCS_Node" with
      | false =>
        rw [hscs] at h
        cases h
        rfl
      | true =>
        rw [hscs] at h
        obtain ⟨scanSt, hscan, h2⟩ := RResult.bind_ok h
        cases h2
        cases scanSt.import_1 <;> cases scanSt.import_2 <;>
          first
          | rfl
          | exact dedup_branch_fst_exports asset _ _
    | levelExport e => dsimp only at h; cases h; rfl
    | structExport e => dsimp only at h; cases h; rfl
    | rawExport e => dsimp only at h; cases h; rfl

theorem process_scs_categories_exports {ga : Asset} :
    ∀ (cats : List Int) (st st' : Asset × List ScsNode × List (Int × Int)),
      process_scs_categories ga st cats = .ok st' → st'.1.exports = st.1.exports := by
  intro cats
  induction cats with
  | nil => intro st st' h; cases h; rfl
  | cons c rest ih =>
    intro st st' h
    obtain ⟨st2, hc, h2⟩ := RResult.bind_ok h
    rw [ih st2 st' h2, process_scs_category_exports hc]

theorem collect_scs_nodes_exports {ga a : Asset} {a2 : Asset} {nodes : List ScsNode}
    (h : collect_scs_nodes ga a = .ok (a2, nodes)) : a2.exports = a.exports := by
  unfold collect_scs_nodes at h
  cases hf : find_scs_export ga with
  | none => rw [hf] at h; cases h; rfl
  | some scs =>
    rw [hf] at h
    obtain ⟨st, hc, h2⟩ := RResult.bind_ok h
    cases h2
    exact process_scs_categories_exports _ _ _ hc

theorem collect_stage_exports {resolve : String → Option Asset} {ac : String} {a a2 : Asset} {nodes : List ScsNode}
    (h : collect_stage resolve ac a = .ok (a2, nodes)) : a2.exports = a.exports := by
  unfold collect_stage at h
  cases hg : game_to_absolute ac with
  | none => rw [hg] at h; simp at h
  | some nm =>
    rw [hg] at h
    dsimp only at h
    cases hr : resolve nm with
    | none => rw [hr] at h; cases h; rfl
    | some ga => rw [hr] at h; exact collect_scs_nodes_exports h

theorem upsertA_mem' {α β : Type} [DecidableEq α] :
    ∀ (m : List (α × β)) (k : α) (v : β) (kv : α × β), kv ∈ upsertA m k v → kv = (k, v) ∨ kv ∈ m := by
  intro m
  induction m with
  | nil => intro k v kv h; simp [upsertA] at h; exact Or.inl h
  | cons kv0 rest ih =>
    intro k v kv h
    unfold upsertA at h
    by_cases hk : kv0.1 = k
    · rw [if_pos hk] at h
      rcases List.mem_cons.mp h with h1 | h1
      · exact Or.inl h1
      · exact Or.inr (List.mem_cons_of_mem _ h1)
    · rw [if_neg hk] at h
      rcases List.mem_cons.mp h with h1 | h1
      · exact Or.inr (h1 ▸ List.mem_cons_self _ _)
      · rcases ih k v kv h1 with h2 | h2
        · exact Or.inl h2
        · exact Or.inr (List.mem_cons_of_mem _ h2)

theorem pass1_spec (sc : NormalExport) (aci tcp : Int) :
    ∀ (nodes : List ScsNode) (a : Asset) (accS : List Export) (accSer : List Property)
      (accNM : List (String × Int)) (accON : List (Int × Int)) (a' : Asset)
      (S' : List Export) (Ser' : List Property) (NM' : List (String × Int)) (ON' : List (Int × Int)),
      pass1 sc aci tcp (a, accS, accSer, accNM, accON) nodes = .ok (a', S', Ser', NM', ON') →
      a'.exports = a.exports ∧
      S' = accS ++ nodes.map (fun n => Export.normalExport (mk_scene_export sc tcp n)) ∧
      (∀ kv, kv ∈ ON' → kv ∈ accON ∨
        ((a.exports.length : Int) + accS.length < kv.2 ∧
         kv.2 ≤ (a.exports.length : Int) + accS.length + nodes.length)) := by
  intro nodes
  induction nodes with
  | nil =>
    intro a accS accSer accNM accON a' S' Ser' NM' ON' h
    cases h
    exact ⟨rfl, by simp, fun kv hkv => Or.inl hkv⟩
  | cons n rest ih =>
    intro a accS accSer accNM accON a' S' Ser' NM' ON' h
    obtain ⟨st2, hstep, hrest⟩ := RResult.bind_ok h
    obtain ⟨a2, S2, Ser2, NM2, ON2⟩ := st2
    unfold pass1_step at hstep
    dsimp only at hstep
    cases hgi : ((a.add_name_reference n.internal_variable_name false).1).get_import n.type_link with
    | none => rw [hgi] at hstep; simp at hstep
    | some ti =>
      rw [hgi] at hstep
      dsimp only at hstep
      cases hstep
      obtain ⟨ih1, ih2, ih3⟩ := ih _ _ _ _ _ _ _ _ _ _ hrest
      have hex2 : (((a.add_name_reference n.internal_variable_name false).1).add_import
          ⟨⟨"/Script/Engine", 0⟩, ti.object_name, aci, ⟨n.internal_variable_name ++ "_GEN_VARIABLE", 0⟩⟩).1.exports = a.exports := by
        rw [add_import_fst_exports, add_name_reference_fst_exports]
      refine ⟨by rw [ih1, hex2], ?_, ?_⟩
      · rw [ih2]
        simp
      · intro kv hkv
        rcases ih3 kv hkv with hin | hbnd
        · rcases upsertA_mem' _ _ _ _ hin with heq | hin2
          · right
            subst heq
            have hle : ((a.add_name_reference n.internal_variable_name false).1).exports.length = a.exports.length := by
              rw [add_name_reference_fst_exports]
            constructor
            · simp only [hle, List.length_append, List.length_cons, List.length_nil]
              push_cast
              omega
            · simp only [hle, List.length_append, List.length_cons, List.length_nil, List.length_map]
              push_cast
              omega
          · exact Or.inl hin2
        · right
          rw [hex2] at hbnd
          simp only [List.length_append, List.length_cons, List.length_nil, List.length_map] at hbnd ⊢
          push_cast at hbnd ⊢
          omega

theorem lookupA_some_mem {α β : Type} [DecidableEq α] :
    ∀ (m : List (α × β)) (k : α) (v : β), lookupA m k = some v → (k, v) ∈ m := by
  intro m
  induction m with
  | nil => intro k v h; simp [lookupA] at h
  | cons kv0 rest ih =>
    intro k v h
    unfold lookupA at h
    by_cases hk : kv0.1 = k
    · rw [if_pos hk] at h
      have : kv0 = (k, v) := by
        obtain ⟨k0, v0⟩ := kv0
        simp only at hk
        subst hk
        simp only [Option.some.injEq] at h
        rw [h]
      exact this ▸ List.mem_cons_self _ _
    · rw [if_neg hk] at h
      exact List.mem_cons_of_mem _ (ih k v h)

theorem pass2_props_mk_scene {omap : List (Int × Int)} {n : ScsNode} {ps : List Property}
    (h : pass2_props omap (mk_scene_props n) = .ok ps) :
    ∀ nm pg di v, Property.objectProperty nm pg di v ∈ ps → nm.content = "AttachParent" →
      ∃ k, (k, v) ∈ omap := by
  cases hap : n.attach_parent with
  | none =>
    rw [mk_scene_props, hap] at h
    simp only [pass2_props, pass2_property, RResult.bind, List.append_nil] at h
    cases h
    intro nm pg di v hmem hnm
    simp at hmem
  | some ap =>
    rw [mk_scene_props, hap] at h
    cases hl : lookupA omap ap with
    | none =>
      simp only [pass2_props, pass2_property, RResult.bind, hl] at h
      split at h <;> simp_all
    | some nv =>
      simp only [pass2_props, pass2_property, RResult.bind, hl, if_true] at h
      cases h
      intro nm pg di v hmem hnm
      simp only [List.cons_append, List.nil_append, List.mem_cons, List.not_mem_nil, or_false] at hmem
      rcases hmem with h1 | h1 | h1 <;> try (cases h1)
      · exact ⟨ap, lookupA_some_mem _ _ _ hl⟩

theorem pass2_mapped_spec (sc : NormalExport) (tcp : Int) (omap : List (Int × Int)) :
    ∀ (nodes : List ScsNode) (S' : List Export),
      pass2 omap (nodes.map (fun n => Export.normalExport (mk_scene_export sc tcp n))) = .ok S' →
      S'.length = nodes.length ∧
      (∀ e, e ∈ S' → ∃ ne2, e = Export.normalExport ne2) ∧
      ∀ (k : Nat) (n : ScsNode), nodes[k]? = some n → ∃ ne, S'[k]? = some (Export.normalExport ne) ∧
        ne.base_export = (mk_scene_export sc tcp n).base_export ∧
        pass2_props omap (mk_scene_props n) = .ok ne.properties := by
  intro nodes
  induction nodes with
  | nil =>
    intro S' h
    cases h
    refine ⟨rfl, by simp, ?_⟩
    intro k n hk
    simp at hk
  | cons n rest ih =>
    intro S' h
    simp only [List.map_cons, pass2] at h
    obtain ⟨e2, he2, h2⟩ := RResult.bind_ok h
    obtain ⟨r2, hr2, h3⟩ := RResult.bind_ok h2
    cases h3
    unfold pass2_export at he2
    obtain ⟨ps, hps, hok⟩ := RResult.bind_ok he2
    cases hok
    obtain ⟨ihl, ihall, ihk⟩ := ih r2 hr2
    refine ⟨by simp [ihl], ?_, ?_⟩
    · intro e he
      rcases List.mem_cons.mp he with he1 | he1
      · exact ⟨_, he1⟩
      · exact ihall e he1
    · intro k nn hk
      cases k with
      | zero =>
        simp only [List.getElem?_cons_zero, Option.some.injEq] at hk
        subst hk
        exact ⟨{ mk_scene_export sc tcp n with properties := ps }, by simp, rfl, hps⟩
      | succ k =>
        simp only [List.getElem?_cons_succ] at hk
        obtain ⟨ne, hne, hb, hp⟩ := ihk k nn hk
        exact ⟨ne, by simpa using hne, hb, hp⟩

theorem finish_injection_ok {a : Asset} {li : Nat} {S2 : List Export} {af : NormalExport} {out : Asset}
    (h : finish_injection a li S2 af = .ok out) :
    ∃ le, ((a.exports ++ S2) ++ [Export.normalExport af])[li]? = some (Export.levelExport le) ∧
      out.exports =
        ((a.exports ++ S2) ++ [Export.normalExport af]).set li
          (Export.levelExport (level_with_new_actor le
            ((((a.exports ++ S2) ++ [Export.normalExport af]).length : Nat) : Int))) := by
  unfold finish_injection at h
  dsimp only at h
  cases hm : ((a.exports ++ S2) ++ [Export.normalExport af])[li]? with
  | none => rw [hm] at h; simp at h
  | some ex =>
    rw [hm] at h
    cases ex with
    | levelExport le =>
      cases h
      exact ⟨le, rfl, rfl⟩
    | normalExport e => simp at h
    | structExport e => simp at h
    | rawExport e => simp at h

theorem inject_actor_ok_elim {resolve : String → Option Asset} {asset0 : Asset} {level_index : Nat}
    {pr ac : String} {at0 sc : NormalExport} {out : Asset}
    (h : inject_actor resolve asset0 level_index pr ac at0 sc = .ok out) :
    ∃ asset2 nodes a3 S Ser NM ON S2,
      collect_stage resolve ac (build_persistent_actor_imports asset0 pr ac).1 = .ok (asset2, nodes) ∧
      pass1 sc (build_persistent_actor_imports asset0 pr ac).2.2.1
        ((asset2.exports.length : Int) + (nodes.length : Int) + 1) (asset2, [], [], [], []) nodes =
        .ok (a3, S, Ser, NM, ON) ∧
      pass2 ON S = .ok S2 ∧
      finish_injection a3 level_index S2
        (mk_actor_final (mk_actor_template at0 (build_persistent_actor_imports asset0 pr ac).2.2.1
            (build_persistent_actor_imports asset0 pr ac).2.2.2 level_index ac)
          (build_persistent_actor_imports asset0 pr ac).2.2.1 (build_persistent_actor_imports asset0 pr ac).2.2.2
          level_index Ser NM) = .ok out := by
  unfold inject_actor at h
  obtain ⟨⟨asset2, nodes⟩, hcol, h2⟩ := RResult.bind_ok h
  dsimp only at h2
  obtain ⟨⟨a3, S, Ser, NM, ON⟩, hp1, h3⟩ := RResult.bind_ok h2
  dsimp only at h3
  obtain ⟨S2, hp2, h4⟩ := RResult.bind_ok h3
  exact ⟨asset2, nodes, a3, S, Ser, NM, ON, S2, hcol, hp1, hp2, h4⟩

theorem build_persistent_actor_imports_exports (a : Asset) (pr ac : String) :
    (build_persistent_actor_imports a pr ac).1.exports = a.exports := by
  unfold build_persistent_actor_imports Asset.add_import
  simp [add_fname_fst_exports]

/-- C1: a persistent-actor injection that completes grows the map's Export
Table by exactly N+1 entries, where N is the number of discoverable component
nodes reported by the SCS extraction stage (N = 0 when the source asset or
the SCS export is missing): the N cloned scene-component exports sit at the
old end of the table (each owned by the actor's final index) and the actor
export is appended last, while the Level export's owned-index list grows by
exactly one entry holding the actor's new index. -/
theorem persistent_injection_grows_exports
    (resolve : String → Option Asset) (asset0 : Asset) (level_index : Nat)
    (pr ac : String) (at0 sc : NormalExport) (out asset2 : Asset) (nodes : List ScsNode)
    (h : inject_actor resolve asset0 level_index pr ac at0 sc = .ok out)
    (hcol : collect_stage resolve ac (build_persistent_actor_imports asset0 pr ac).1 = .ok (asset2, nodes)) :
    out.exports.length = asset0.exports.length + nodes.length + 1 ∧
    (∀ k : Nat, k < nodes.length → ∃ ne, out.exports[asset0.exports.length + k]? = some (Export.normalExport ne) ∧
      ne.base_export.outer_index = (asset0.exports.length : Int) + nodes.length + 1) ∧
    (∃ af2, out.exports[asset0.exports.length + nodes.length]? = some (Export.normalExport af2) ∧
      af2.base_export.object_name = ⟨ac, 0⟩) ∧
    (∃ le le2, asset0.exports[level_index]? = some (Export.levelExport le) ∧
      out.exports[level_index]? = some (Export.levelExport le2) ∧
      le2.index_data = le.index_data ++ [(asset0.exports.length : Int) + nodes.length + 1]) ∧
    (∀ nm, game_to_absolute ac = some nm → resolve nm = none → nodes = []) ∧
    (∀ nm ga, game_to_absolute ac = some nm → resolve nm = some ga → find_scs_export ga = none → nodes = []) := by
  obtain ⟨asset2', nodes', a3, S, Ser, NM, ON, S2, hcol', hp1, hp2, hfin⟩ := inject_actor_ok_elim h
  rw [hcol] at hcol'
  simp only [RResult.ok.injEq, Prod.mk.injEq] at hcol'
  obtain ⟨he1, he2⟩ := hcol'
  subst he1
  subst he2
  have hex2 : asset2.exports = asset0.exports := by
    rw [collect_stage_exports hcol, build_persistent_actor_imports_exports]
  obtain ⟨hp1ex, hp1S, hp1ON⟩ := pass1_spec sc _ _ nodes asset2 [] [] [] [] a3 S Ser NM ON hp1
  rw [List.nil_append] at hp1S
  subst hp1S
  obtain ⟨hS2len, hS2all, hS2k⟩ := pass2_mapped_spec sc _ ON nodes S2 hp2
  obtain ⟨le, hle, houtex⟩ := finish_injection_ok hfin
  set AF := mk_actor_final (mk_actor_template at0 (build_persistent_actor_imports asset0 pr ac).2.2.1 (build_persistent_actor_imports asset0 pr ac).2.2.2 level_index ac) (build_persistent_actor_imports asset0 pr ac).2.2.1 (build_persistent_actor_imports asset0 pr ac).2.2.2 level_index Ser NM with hAF
  have hE0eq : a3.exports = asset0.exports := by rw [hp1ex, hex2]
  have hbiglen : ((a3.exports ++ S2) ++ [Export.normalExport AF]).length
        = asset0.exports.length + nodes.length + 1 := by
    simp [hE0eq, hS2len]
    omega
  have hli : level_index < asset0.exports.length := by
    by_contra hge
    push_neg at hge
    have hlt := (List.getElem?_eq_some.mp hle).1
    rw [hbiglen] at hlt
    by_cases hmid : level_index < asset0.exports.length + nodes.length
    · have hstep1 : ((a3.exports ++ S2) ++ [Export.normalExport AF])[level_index]? = (a3.exports ++ S2)[level_index]? := by
        apply List.getElem?_append_left
        simp only [List.length_append, hE0eq, hS2len]
        omega
      have hstep2 : (a3.exports ++ S2)[level_index]? = S2[level_index - asset0.exports.length]? := by
        rw [← hE0eq] at hge ⊢
        exact List.getElem?_append_right hge
      rw [hstep1, hstep2] at hle
      have hmem := List.getElem?_mem hle
      obtain ⟨ne2, hne2⟩ := hS2all _ hmem
      cases hne2
    · have hstep1 : ((a3.exports ++ S2) ++ [Export.normalExport AF])[level_index]? = some (Export.normalExport AF) := by
        rw [List.getElem?_append_right (by simp only [List.length_append, hE0eq, hS2len]; omega)]
        have : level_index - (a3.exports ++ S2).length = 0 := by
          simp only [List.length_append, hE0eq, hS2len]
          omega
        rw [this]
        rfl
      rw [hstep1] at hle
      cases hle
  refine ⟨?_, ?_, ?_, ?_, ?_, ?_⟩
  · rw [houtex, List.length_set]
    exact hbiglen
  · intro k hk
    have hne : level_index ≠ asset0.exports.length + k := by omega
    have hset : out.exports[asset0.exports.length + k]? =
        ((a3.exports ++ S2) ++ [Export.normalExport AF])[asset0.exports.length + k]? := by
      rw [houtex]
      exact List.getElem?_set_ne hne
    have hstep1 : ((a3.exports ++ S2) ++ [Export.normalExport AF])[asset0.exports.length + k]? = (a3.exports ++ S2)[asset0.exports.length + k]? := by
      apply List.getElem?_append_left
      simp only [List.length_append, hE0eq, hS2len]
      omega
    have hstep2 : (a3.exports ++ S2)[asset0.exports.length + k]? = S2[k]? := by
      have hr : (a3.exports ++ S2)[asset0.exports.length + k]? = S2[asset0.exports.length + k - a3.exports.length]? :=
        List.getElem?_append_right (by rw [hE0eq]; omega)
      rw [hr, hE0eq]
      congr 1
      omega
    obtain ⟨n, hn⟩ : ∃ n, nodes[k]? = some n := ⟨nodes[k], List.getElem?_eq_getElem hk⟩
    obtain ⟨ne, hne2, hbase, _⟩ := hS2k k n hn
    refine ⟨ne, ?_, ?_⟩
    · rw [hset, hstep1, hstep2, hne2]
    · rw [hbase]
      show ((asset2.exports.length : Int) + (nodes.length : Int) + 1) = _
      rw [hex2]
  · have hne : level_index ≠ asset0.exports.length + nodes.length := by omega
    have hget : out.exports[asset0.exports.length + nodes.length]? = some (Export.normalExport AF) := by
      rw [houtex]
      rw [List.getElem?_set_ne hne]
      rw [List.getElem?_append_right (by simp only [List.length_append, hE0eq, hS2len]; omega)]
      have : asset0.exports.length + nodes.length - (a3.exports ++ S2).length = 0 := by
        simp only [List.length_append, hE0eq, hS2len]
        omega
      rw [this]
      rfl
    refine ⟨AF, hget, ?_⟩
    rw [hAF]
    rfl
  · have hlevBig : ((a3.exports ++ S2) ++ [Export.normalExport AF])[level_index]? = asset0.exports[level_index]? := by
      rw [List.getElem?_append_left (by simp only [List.length_append, hE0eq, hS2len]; omega)]
      rw [List.getElem?_append_left (by rw [hE0eq]; omega)]
      rw [hE0eq]
    refine ⟨le, level_with_new_actor le ((((a3.exports ++ S2) ++ [Export.normalExport AF]).length : Nat) : Int), ?_, ?_, ?_⟩
    · rw [← hlevBig]
      exact hle
    · rw [houtex]
      apply List.getElem?_set_eq_of_lt
      rw [hbiglen]
      omega
    · show le.index_data ++ [_] = _
      congr 1
      rw [hbiglen]
      push_cast
      ring
  · intro nm hg hr
    unfold collect_stage at hcol
    rw [hg] at hcol
    dsimp only at hcol
    rw [hr] at hcol
    cases hcol
    rfl
  · intro nm ga hg hr hscs
    unfold collect_stage at hcol
    rw [hg] at hcol
    dsimp only at hcol
    rw [hr] at hcol
    dsimp only at hcol
    unfold collect_scs_nodes at hcol
    rw [hscs] at hcol
    cases hcol
    rfl

/-- C2: after a completed persistent-actor injection, every AttachParent
object property on the newly appended scene-component exports holds the final
target-package index of one of those newly appended component exports (a
value strictly between the old table length and old length + N), never an
index taken from the source asset: pass one records the old-to-new map and
pass two rewrites every AttachParent through it, so a surviving value is
always a value of that map. -/
theorem attach_parent_two_pass_resolution
    (resolve : String → Option Asset) (asset0 : Asset) (level_index : Nat)
    (pr ac : String) (at0 sc : NormalExport) (out asset2 : Asset) (nodes : List ScsNode)
    (h : inject_actor resolve asset0 level_index pr ac at0 sc = .ok out)
    (hcol : collect_stage resolve ac (build_persistent_actor_imports asset0 pr ac).1 = .ok (asset2, nodes)) :
    ∀ k : Nat, k < nodes.length → ∃ ne, out.exports[asset0.exports.length + k]? = some (Export.normalExport ne) ∧
      attachValuesWithin (asset0.exports.length : Int) ((asset0.exports.length : Int) + nodes.length) ne.properties = true := by
  obtain ⟨asset2', nodes', a3, S, Ser, NM, ON, S2, hcol', hp1, hp2, hfin⟩ := inject_actor_ok_elim h
  rw [hcol] at hcol'
  simp only [RResult.ok.injEq, Prod.mk.injEq] at hcol'
  obtain ⟨he1, he2⟩ := hcol'
  subst he1
  subst he2
  have hex2 : asset2.exports = asset0.exports := by
    rw [collect_stage_exports hcol, build_persistent_actor_imports_exports]
  obtain ⟨hp1ex, hp1S, hp1ON⟩ := pass1_spec sc _ _ nodes asset2 [] [] [] [] a3 S Ser NM ON hp1
  rw [List.nil_append] at hp1S
  subst hp1S
  obtain ⟨hS2len, hS2all, hS2k⟩ := pass2_mapped_spec sc _ ON nodes S2 hp2
  obtain ⟨le, hle, houtex⟩ := finish_injection_ok hfin
  set AF := mk_actor_final (mk_actor_template at0 (build_persistent_actor_imports asset0 pr ac).2.2.1 (build_persistent_actor_imports asset0 pr ac).2.2.2 level_index ac) (build_persistent_actor_imports asset0 pr ac).2.2.1 (build_persistent_actor_imports asset0 pr ac).2.2.2 level_index Ser NM with hAF
  have hE0eq : a3.exports = asset0.exports := by rw [hp1ex, hex2]
  have hli : level_index < asset0.exports.length := by
    by_contra hge
    push_neg at hge
    by_cases hmid : level_index < asset0.exports.length + nodes.length
    · have hstep1 : ((a3.exports ++ S2) ++ [Export.normalExport AF])[level_index]? = (a3.exports ++ S2)[level_index]? := by
        apply List.getElem?_append_left
        simp only [List.length_append, hE0eq, hS2len]
        omega
      have hstep2 : (a3.exports ++ S2)[level_index]? = S2[level_index - asset0.exports.length]? := by
        rw [← hE0eq] at hge ⊢
        exact List.getElem?_append_right hge
      rw [hstep1, hstep2] at hle
      have hmem := List.getElem?_mem hle
      obtain ⟨ne2, hne2⟩ := hS2all _ hmem
      cases hne2
    · have hlt := (List.getElem?_eq_some.mp hle).1
      simp only [List.length_append, hE0eq, hS2len, List.length_cons, List.length_nil] at hlt
      by_cases hex : level_index = asset0.exports.length + nodes.length
      · have hstep1 : ((a3.exports ++ S2) ++ [Export.normalExport AF])[level_index]? = some (Export.normalExport AF) := by
          rw [List.getElem?_append_right (by simp only [List.length_append, hE0eq, hS2len]; omega)]
          have : level_index - (a3.exports ++ S2).length = 0 := by
            simp only [List.length_append, hE0eq, hS2len]
            omega
          rw [this]
          rfl
        rw [hstep1] at hle
        cases hle
      · omega
  intro k hk
  have hne : level_index ≠ asset0.exports.length + k := by omega
  have hset : out.exports[asset0.exports.length + k]? =
      ((a3.exports ++ S2) ++ [Export.normalExport AF])[asset0.exports.length + k]? := by
    rw [houtex]
    exact List.getElem?_set_ne hne
  have hstep1 : ((a3.exports ++ S2) ++ [Export.normalExport AF])[asset0.exports.length + k]? = (a3.exports ++ S2)[asset0.exports.length + k]? := by
    apply List.getElem?_append_left
    simp only [List.length_append, hE0eq, hS2len]
    omega
  have hstep2 : (a3.exports ++ S2)[asset0.exports.length + k]? = S2[k]? := by
    have hr : (a3.exports ++ S2)[asset0.exports.length + k]? = S2[asset0.exports.length + k - a3.exports.length]? :=
      List.getElem?_append_right (by rw [hE0eq]; omega)
    rw [hr, hE0eq]
    congr 1
    omega
  obtain ⟨n, hn⟩ : ∃ n, nodes[k]? = some n := ⟨nodes[k], List.getElem?_eq_getElem hk⟩
  obtain ⟨ne, hne2, hbase, hprops⟩ := hS2k k n hn
  refine ⟨ne, by rw [hset, hstep1, hstep2, hne2], ?_⟩
  have hattach := pass2_props_mk_scene hprops
  rw [attachValuesWithin, List.all_eq_true]
  intro p hp
  cases p with
  | objectProperty nm pg di v =>
    dsimp only
    by_cases hnm : nm.content = "AttachParent"
    · rw [if_pos (by simp [hnm])]
      obtain ⟨key, hkv⟩ := hattach nm pg di v hp hnm
      rcases hp1ON _ hkv with hfalse | ⟨hlo, hhi⟩
      · simp at hfalse
      · simp only [List.length_nil, Nat.cast_zero, add_zero] at hlo hhi
        rw [hex2] at hlo hhi
        simp only [Bool.and_eq_true, decide_eq_true_eq]
        constructor
        · exact_mod_cast hlo
        · exact_mod_cast hhi
    · rw [if_neg (by simp [hnm])]
  | boolProperty nm pg di v => rfl
  | enumProperty nm pg di et v => rfl
  | softObjectProperty nm pg di v id2 => rfl
  | nameProperty nm pg di v => rfl
  | guidProperty nm pg di v => rfl
  | structProperty nm st sg pg di sn v => rfl
  | arrayProperty nm ty pg di v => rfl

/-- C5 (amended): in a completed persistent-actor injection the appended
actor export carries serialization-before-create edges appended for its class import
and its template import and a create-before-create edge appended for
its owning Level, while the cloned scene-component exports are appended with
the stencil's dependency lists unchanged (no such edges are added for them). -/
theorem actor_export_dep_edges
    (resolve : String → Option Asset) (asset0 : Asset) (level_index : Nat)
    (pr ac : String) (at0 sc : NormalExport) (out asset2 : Asset) (nodes : List ScsNode)
    (h : inject_actor resolve asset0 level_index pr ac at0 sc = .ok out)
    (hcol : collect_stage resolve ac (build_persistent_actor_imports asset0 pr ac).1 = .ok (asset2, nodes)) :
    (∃ af2, out.exports[asset0.exports.length + nodes.length]? = some (Export.normalExport af2) ∧
      af2.base_export.class_index = (build_persistent_actor_imports asset0 pr ac).2.2.1 ∧
      af2.base_export.template_index = (build_persistent_actor_imports asset0 pr ac).2.2.2 ∧
      af2.base_export.outer_index = (level_index : Int) + 1 ∧
      af2.base_export.serialization_before_create_dependencies =
        at0.base_export.serialization_before_create_dependencies ++
          [(build_persistent_actor_imports asset0 pr ac).2.2.1, (build_persistent_actor_imports asset0 pr ac).2.2.2] ∧
      af2.base_export.create_before_create_dependencies =
        at0.base_export.create_before_create_dependencies ++ [(level_index : Int) + 1]) ∧
    (∀ k : Nat, k < nodes.length → ∃ ne, out.exports[asset0.exports.length + k]? = some (Export.normalExport ne) ∧
      ne.base_export.serialization_before_create_dependencies = sc.base_export.serialization_before_create_dependencies ∧
      ne.base_export.create_before_create_dependencies = sc.base_export.create_before_create_dependencies) := by
  obtain ⟨asset2', nodes', a3, S, Ser, NM, ON, S2, hcol', hp1, hp2, hfin⟩ := inject_actor_ok_elim h
  rw [hcol] at hcol'
  simp only [RResult.ok.injEq, Prod.mk.injEq] at hcol'
  obtain ⟨he1, he2⟩ := hcol'
  subst he1
  subst he2
  have hex2 : asset2.exports = asset0.exports := by
    rw [collect_stage_exports hcol, build_persistent_actor_imports_exports]
  obtain ⟨hp1ex, hp1S, hp1ON⟩ := pass1_spec sc _ _ nodes asset2 [] [] [] [] a3 S Ser NM ON hp1
  rw [List.nil_append] at hp1S
  subst hp1S
  obtain ⟨hS2len, hS2all, hS2k⟩ := pass2_mapped_spec sc _ ON nodes S2 hp2
  obtain ⟨le, hle, houtex⟩ := finish_injection_ok hfin
  set AF := mk_actor_final (mk_actor_template at0 (build_persistent_actor_imports asset0 pr ac).2.2.1 (build_persistent_actor_imports asset0 pr ac).2.2.2 level_index ac) (build_persistent_actor_imports asset0 pr ac).2.2.1 (build_persistent_actor_imports asset0 pr ac).2.2.2 level_index Ser NM with hAF
  have hE0eq : a3.exports = asset0.exports := by rw [hp1ex, hex2]
  have hli : level_index < asset0.exports.length := by
    by_contra hge
    push_neg at hge
    by_cases hmid : level_index < asset0.exports.length + nodes.length
    · have hstep1 : ((a3.exports ++ S2) ++ [Export.normalExport AF])[level_index]? = (a3.exports ++ S2)[level_index]? := by
        apply List.getElem?_append_left
        simp only [List.length_append, hE0eq, hS2len]
        omega
      have hstep2 : (a3.exports ++ S2)[level_index]? = S2[level_index - asset0.exports.length]? := by
        rw [← hE0eq] at hge ⊢
        exact List.getElem?_append_right hge
      rw [hstep1, hstep2] at hle
      have hmem := List.getElem?_mem hle
      obtain ⟨ne2, hne2⟩ := hS2all _ hmem
      cases hne2
    · have hlt := (List.getElem?_eq_some.mp hle).1
      simp only [List.length_append, hE0eq, hS2len, List.length_cons, List.length_nil] at hlt
      by_cases hex : level_index = asset0.exports.length + nodes.length
      · have hstep1 : ((a3.exports ++ S2) ++ [Export.normalExport AF])[level_index]? = some (Export.normalExport AF) := by
          rw [List.getElem?_append_right (by simp only [List.length_append, hE0eq, hS2len]; omega)]
          have : level_index - (a3.exports ++ S2).length = 0 := by
            simp only [List.length_append, hE0eq, hS2len]
            omega
          rw [this]
          rfl
        rw [hstep1] at hle
        cases hle
      · omega
  constructor
  · have hne : level_index ≠ asset0.exports.length + nodes.length := by omega
    have hget : out.exports[asset0.exports.length + nodes.length]? = some (Export.normalExport AF) := by
      rw [houtex]
      rw [List.getElem?_set_ne hne]
      rw [List.getElem?_append_right (by simp only [List.length_append, hE0eq, hS2len]; omega)]
      have : asset0.exports.length + nodes.length - (a3.exports ++ S2).length = 0 := by
        simp only [List.length_append, hE0eq, hS2len]
        omega
      rw [this]
      rfl
    refine ⟨AF, hget, ?_, ?_, ?_, ?_, ?_⟩ <;> (rw [hAF]; rfl)
  · intro k hk
    have hne : level_index ≠ asset0.exports.length + k := by omega
    have hset : out.exports[asset0.exports.length + k]? =
        ((a3.exports ++ S2) ++ [Export.normalExport AF])[asset0.exports.length + k]? := by
      rw [houtex]
      exact List.getElem?_set_ne hne
    have hstep1 : ((a3.exports ++ S2) ++ [Export.normalExport AF])[asset0.exports.length + k]? = (a3.exports ++ S2)[asset0.exports.length + k]? := by
      apply List.getElem?_append_left
      simp only [List.length_append, hE0eq, hS2len]
      omega
    have hstep2 : (a3.exports ++ S2)[asset0.exports.length + k]? = S2[k]? := by
      have hr : (a3.exports ++ S2)[asset0.exports.length + k]? = S2[asset0.exports.length + k - a3.exports.length]? :=
        List.getElem?_append_right (by rw [hE0eq]; omega)
      rw [hr, hE0eq]
      congr 1
      omega
    obtain ⟨n, hn⟩ : ∃ n, nodes[k]? = some n := ⟨nodes[k], List.getElem?_eq_getElem hk⟩
    obtain ⟨ne, hne2, hbase, _⟩ := hS2k k n hn
    refine ⟨ne, by rw [hset, hstep1, hstep2, hne2], ?_, ?_⟩
    · rw [hbase]
      rfl
    · rw [hbase]
      rfl

/-- Witness for C1: a zero-component injection into a one-export map grows
the Export Table from 1 to 2 entries. -/
theorem persistent_injection_grows_exports_witness :
    inject_actor resolveNone mapAssetSimple 0 "/Game/Mods/TestActor" "/Game/TestActor" actorStencil sceneStencil = .ok c1_out ∧
    c1_out.exports.length = mapAssetSimple.exports.length + List.length ([] : List ScsNode) + 1 := by
  refine ⟨rfl, ?_⟩
  exact (persistent_injection_grows_exports resolveNone mapAssetSimple 0 "/Game/Mods/TestActor" "/Game/TestActor"
    actorStencil sceneStencil c1_out
    (build_persistent_actor_imports mapAssetSimple "/Game/Mods/TestActor" "/Game/TestActor").1 [] rfl rfl).1

/-- Witness for C2: in the concrete two-node injection the second scene
component's AttachParent lies in the appended range (2, 4]. -/
theorem attach_parent_two_pass_resolution_witness :
    inject_actor resolveTwoNodes mapAssetTwo 0 "/Game/ActorB" "/Game/ActorB" actorStencil sceneStencil = .ok c2_out ∧
    (∃ ne, c2_out.exports[mapAssetTwo.exports.length + 1]? = some (Export.normalExport ne) ∧
      attachValuesWithin (mapAssetTwo.exports.length : Int) ((mapAssetTwo.exports.length : Int) + 2) ne.properties = true) := by
  refine ⟨rfl, ?_⟩
  have hcol : collect_stage resolveTwoNodes "/Game/ActorB" (build_persistent_actor_imports mapAssetTwo "/Game/ActorB" "/Game/ActorB").1 =
      .ok ((collect_stage resolveTwoNodes "/Game/ActorB" (build_persistent_actor_imports mapAssetTwo "/Game/ActorB" "/Game/ActorB").1).getOk.1,
           (collect_stage resolveTwoNodes "/Game/ActorB" (build_persistent_actor_imports mapAssetTwo "/Game/ActorB" "/Game/ActorB").1).getOk.2) := rfl
  have h := attach_parent_two_pass_resolution resolveTwoNodes mapAssetTwo 0 "/Game/ActorB" "/Game/ActorB"
    actorStencil sceneStencil c2_out _ _ rfl hcol
  exact h 1 (by decide)

/-- C5 counterexample: in the concrete two-node injection, the appended
scene-component export at table position 3 has a class import (-7) but empty
serialization-before-create and create-before-create dependency lists — the
engine appended no edges for this export, contradicting the claim's "every
export appended". -/
theorem scene_component_missing_dep_edges :
    inject_actor resolveTwoNodes mapAssetTwo 0 "/Game/ActorB" "/Game/ActorB" actorStencil sceneStencil = .ok c2_out ∧
    c2_out.exports[2]? = some (Export.normalExport (mk_scene_export sceneStencil 5 ⟨"CompA", -7, none, 2⟩)) ∧
    (mk_scene_export sceneStencil 5 ⟨"CompA", -7, none, 2⟩).base_export.class_index = -7 ∧
    (mk_scene_export sceneStencil 5 ⟨"CompA", -7, none, 2⟩).base_export.serialization_before_create_dependencies = [] ∧
    (mk_scene_export sceneStencil 5 ⟨"CompA", -7, none, 2⟩).base_export.create_before_create_dependencies = [] := by
  exact ⟨rfl, rfl, rfl, rfl, rfl⟩

/-- Witness for C5: in the concrete two-node injection the actor export's
serialization-before-create list equals the stencil's list extended by the
class import -4 and template import -5. -/
theorem actor_export_dep_edges_witness :
    inject_actor resolveTwoNodes mapAssetTwo 0 "/Game/ActorB" "/Game/ActorB" actorStencil sceneStencil = .ok c2_out ∧
    (∃ af2, c2_out.exports[mapAssetTwo.exports.length + 2]? = some (Export.normalExport af2) ∧
      af2.base_export.serialization_before_create_dependencies =
        actorStencil.base_export.serialization_before_create_dependencies ++ [-4, -5]) := by
  refine ⟨rfl, ?_⟩
  have hcol : collect_stage resolveTwoNodes "/Game/ActorB" (build_persistent_actor_imports mapAssetTwo "/Game/ActorB" "/Game/ActorB").1 =
      .ok ((collect_stage resolveTwoNodes "/Game/ActorB" (build_persistent_actor_imports mapAssetTwo "/Game/ActorB" "/Game/ActorB").1).getOk.1,
           (collect_stage resolveTwoNodes "/Game/ActorB" (build_persistent_actor_imports mapAssetTwo "/Game/ActorB" "/Game/ActorB").1).getOk.2) := rfl
  have h := actor_export_dep_edges resolveTwoNodes mapAssetTwo 0 "/Game/ActorB" "/Game/ActorB"
    actorStencil sceneStencil c2_out _ _ rfl hcol
  obtain ⟨⟨af2, hget, hci, hti, ho, hsbc, hcbc⟩, _⟩ := h
  exact ⟨af2, hget, hsbc⟩

theorem lookupA_pushEntry : ∀ (m : ItemMap) (k : String) (v : ItemEntry) (k' : String),
    lookupA (pushEntry m k v) k' = if k' = k then some (lookupD m k ++ [v]) else lookupA m k' := by
  intro m k v
  induction m with
  | nil =>
    intro k'
    by_cases h : k' = k <;> simp_all [pushEntry, lookupA, lookupD]
    exact fun e => h e.symm
  | cons kv0 rest ih =>
    intro k'
    obtain ⟨k0, l0⟩ := kv0
    by_cases h0 : k0 = k <;> by_cases h1 : k0 = k' <;> by_cases h2 : k' = k <;>
      simp_all [pushEntry, lookupA, lookupD, ih k']

theorem item_entry_matches_ok {a : Asset} {ne : NormalExport} {key : String} {o : Option String}
    (h : item_entry_matches a ne key = .ok o) : o = pure_item_match a ne key := by
  unfold item_entry_matches at h
  unfold pure_item_match
  by_cases hd : containsChar '.' key
  · rw [if_pos hd] at h ⊢
    by_cases hii : isImportIndex ne.base_export.class_index
    · simp only [hii, if_true] at h ⊢
      cases hgi : a.get_import ne.base_export.class_index with
      | none => rw [hgi] at h; simp [RResult.bind] at h
      | some imp =>
        rw [hgi] at h
        simp only [RResult.bind] at h
        have hred : (Option.map (fun imp => imp.object_name.content) (some imp)).getD "" = imp.object_name.content := rfl
        rw [hred]
        by_cases hob : imp.object_name.content ≠ (splitOnCharS '.' key).headD ""
        · rw [if_pos hob] at h ⊢
          simp only [RResult.ok.injEq] at h
          exact h.symm
        · rw [if_neg hob] at h ⊢
          simp only [RResult.ok.injEq] at h
          exact h.symm
    · simp only [hii, Bool.false_eq_true, if_false] at h ⊢
      simp only [RResult.bind] at h
      by_cases hob : "" ≠ (splitOnCharS '.' key).headD ""
      · rw [if_pos hob] at h ⊢
        simp only [RResult.ok.injEq] at h
        exact h.symm
      · rw [if_neg hob] at h ⊢
        simp only [RResult.ok.injEq] at h
        exact h.symm
  · rw [if_neg hd] at h ⊢
    simp only [RResult.ok.injEq] at h
    exact h.symm

theorem scan_key_step_ok {a : Asset} {ne : NormalExport} {i : Nat} {p : Property} {key : String} {found : Option ItemEntry}
    (h : scan_key_step a ne i p key = .ok found) : found = entry_of a ne i p key := by
  unfold scan_key_step at h
  obtain ⟨o, hmatch, h2⟩ := RResult.bind_ok h
  have ho := item_entry_matches_ok hmatch
  subst ho
  unfold entry_of
  cases hpim : pure_item_match a ne key with
  | none =>
    rw [hpim] at h2
    cases p <;> simp_all
  | some arr_name =>
    rw [hpim] at h2
    cases p <;> try simp_all
    case arrayProperty nm ty pg di v =>
      by_cases hnm : nm.content = arr_name
      · rw [if_pos hnm] at h2 ⊢
        cases ty with
        | none => simp at h2
        | some t =>
          simp only [RResult.ok.injEq] at h2
          simp [h2.symm]
      · rw [if_neg hnm] at h2 ⊢
        simp only [RResult.ok.injEq] at h2
        exact h2.symm

theorem scan_push_keys_spec (a : Asset) (ne : NormalExport) (i : Nat) (p : Property) :
    ∀ (keys : List String) (m m' : ItemMap),
      scan_push_keys a ne i p keys m = .ok m' →
      (∀ key, key ∉ keys → lookupA m' key = lookupA m key) ∧
      (keys.Nodup → ∀ key ∈ keys, lookupD m' key = lookupD m key ++ (entry_of a ne i p key).toList) := by
  intro keys
  induction keys with
  | nil =>
    intro m m' h
    cases h
    exact ⟨fun _ _ => rfl, by intro _ key hk; simp at hk⟩
  | cons key0 rest ih =>
    intro m m' h
    unfold scan_push_keys at h
    obtain ⟨found, hstep, h2⟩ := RResult.bind_ok h
    have hf := scan_key_step_ok hstep
    subst hf
    cases hent : entry_of a ne i p key0 with
    | none =>
      rw [hent] at h2
      obtain ⟨ihne, ihnd⟩ := ih m m' h2
      refine ⟨?_, ?_⟩
      · intro key hk
        exact ihne key (fun hx => hk (List.mem_cons_of_mem _ hx))
      · intro hnd key hkmem
        have hnd0 : key0 ∉ rest := (List.nodup_cons.mp hnd).1
        have hndr : rest.Nodup := (List.nodup_cons.mp hnd).2
        rcases List.mem_cons.mp hkmem with hk0 | hkr
        · subst hk0
          rw [hent]
          simp only [Option.toList_none, List.append_nil]
          unfold lookupD
          rw [ihne key hnd0]
        · exact ihnd hndr key hkr
    | some e =>
      rw [hent] at h2
      obtain ⟨ihne, ihnd⟩ := ih _ _ h2
      refine ⟨?_, ?_⟩
      · intro key hk
        have hk0 : key ≠ key0 := fun e2 => hk (e2 ▸ List.mem_cons_self _ _)
        have hkr : key ∉ rest := fun hx => hk (List.mem_cons_of_mem _ hx)
        rw [ihne key hkr, lookupA_pushEntry, if_neg hk0]
      · intro hnd key hkmem
        have hnd0 : key0 ∉ rest := (List.nodup_cons.mp hnd).1
        have hndr : rest.Nodup := (List.nodup_cons.mp hnd).2
        rcases List.mem_cons.mp hkmem with hk0 | hkr
        · subst hk0
          rw [hent]
          unfold lookupD
          rw [ihne key hnd0, lookupA_pushEntry, if_pos rfl]
          simp [lookupD]
        · have hkne : key ≠ key0 := fun e2 => hnd0 (e2 ▸ hkr)
          rw [ihnd hndr key hkr]
          unfold lookupD
          rw [lookupA_pushEntry, if_neg hkne]

theorem scan_props_spec (a : Asset) (ne : NormalExport) (i : Nat) (keys : List String) :
    ∀ (props : List Property) (m m' : ItemMap),
      scan_props a ne i keys props m = .ok m' →
      (∀ key, key ∉ keys → lookupA m' key = lookupA m key) ∧
      (keys.Nodup → ∀ key ∈ keys, lookupD m' key =
        lookupD m key ++ props.filterMap (fun p => entry_of a ne i p key)) := by
  intro props
  induction props with
  | nil =>
    intro m m' h
    cases h
    exact ⟨fun _ _ => rfl, by intro _ key _; simp⟩
  | cons p rest ih =>
    intro m m' h
    unfold scan_props at h
    obtain ⟨m2, hp, h2⟩ := RResult.bind_ok h
    obtain ⟨pne, pnd⟩ := scan_push_keys_spec a ne i p keys m m2 hp
    obtain ⟨ihne, ihnd⟩ := ih m2 m' h2
    refine ⟨?_, ?_⟩
    · intro key hk
      rw [ihne key hk, pne key hk]
    · intro hnd key hkmem
      rw [ihnd hnd key hkmem, pnd hnd key hkmem]
      simp [List.filterMap_cons]
      cases hent : entry_of a ne i p key <;> simp

theorem scan_exports_spec (a : Asset) (keys : List String) :
    ∀ (exps : List Export) (i : Nat) (m m' : ItemMap),
      scan_exports a keys i exps m = .ok m' →
      (∀ key, key ∉ keys → lookupA m' key = lookupA m key) ∧
      (keys.Nodup → ∀ key ∈ keys, lookupD m' key = lookupD m key ++ selected_from a key i exps) := by
  intro exps
  induction exps with
  | nil =>
    intro i m m' h
    cases h
    exact ⟨fun _ _ => rfl, by intro _ key _; simp [selected_from]⟩
  | cons e rest ih =>
    intro i m m' h
    cases e with
    | normalExport ne =>
      unfold scan_exports at h
      obtain ⟨m2, hp, h2⟩ := RResult.bind_ok h
      obtain ⟨pne, pnd⟩ := scan_props_spec a ne i keys ne.properties m m2 hp
      obtain ⟨ihne, ihnd⟩ := ih (i + 1) m2 m' h2
      refine ⟨?_, ?_⟩
      · intro key hk
        rw [ihne key hk, pne key hk]
      · intro hnd key hkmem
        rw [ihnd hnd key hkmem, pnd hnd key hkmem, selected_from]
        simp [List.append_assoc]
    | levelExport e2 =>
      unfold scan_exports at h
      obtain ⟨ihne, ihnd⟩ := ih (i + 1) m m' h
      refine ⟨ihne, ?_⟩
      intro hnd key hkmem
      rw [ihnd hnd key hkmem]
      rfl
    | structExport e2 =>
      unfold scan_exports at h
      obtain ⟨ihne, ihnd⟩ := ih (i + 1) m m' h
      refine ⟨ihne, ?_⟩
      intro hnd key hkmem
      rw [ihnd hnd key hkmem]
      rfl
    | rawExport e2 =>
      unfold scan_exports at h
      obtain ⟨ihne, ihnd⟩ := ih (i + 1) m m' h
      refine ⟨ihne, ?_⟩
      intro hnd key hkmem
      rw [ihnd hnd key hkmem]
      rfl

theorem lookupA_nil_getD (key : String) : lookupD ([] : ItemMap) key = [] := rfl

/-- C7 (amended): the matched-array map built by the item-list scan selects,
for every key, exactly the array properties matching that key per the
name-and-class-qualifier rule, where the keys tried are the first-level
(target-asset-path) keys of the merged instruction map, not the second-level
property keys. -/
theorem item_scan_first_level_characterization
    (asset : Asset) (keys : List String) (m : ItemMap)
    (hnd : keys.Nodup)
    (h : scan_item_arrays asset keys = .ok m) :
    ∀ key, lookupD m key = if key ∈ keys then selected_entries_for_key asset key else [] := by
  unfold scan_item_arrays at h
  obtain ⟨hne, hnd2⟩ := scan_exports_spec asset keys asset.exports 0 [] m h
  intro key
  by_cases hk : key ∈ keys
  · rw [if_pos hk, hnd2 hnd key hk]
    rfl
  · rw [if_neg hk]
    unfold lookupD
    rw [hne key hk]
    rfl

theorem entry_of_fst {a : Asset} {ne : NormalExport} {i : Nat} {p : Property} {key : String} {e : ItemEntry}
    (h : entry_of a ne i p key = some e) : e.1 = i ∧ e.2.2 = key := by
  unfold entry_of at h
  cases hpim : pure_item_match a ne key <;> rw [hpim] at h
  · cases p <;> simp_all
  · cases p <;> try simp_all
    case arrayProperty nm ty pg di v =>
    obtain ⟨-, t, -, he⟩ := h
    rw [← he]
    exact ⟨rfl, rfl⟩

theorem selected_from_entryOk : ∀ (exps : List Export) (a : Asset) (key : String) (i : Nat) (e : ItemEntry),
    e ∈ selected_from a key i exps →
    ∃ j ne, i + j = e.1 ∧ exps[j]? = some (Export.normalExport ne) := by
  intro exps
  induction exps with
  | nil => intro a key i e he; simp [selected_from] at he
  | cons x rest ih =>
    intro a key i e he
    cases x with
    | normalExport ne =>
      unfold selected_from at he
      rcases List.mem_append.mp he with h1 | h1
      · obtain ⟨p, hp, hent⟩ := List.mem_filterMap.mp h1
        obtain ⟨hfst, _⟩ := entry_of_fst hent
        exact ⟨0, ne, by omega, by simp⟩
      · obtain ⟨j, ne2, hij, hget⟩ := ih a key (i + 1) e h1
        exact ⟨j + 1, ne2, by omega, by simpa using hget⟩
    | levelExport e2 =>
      obtain ⟨j, ne2, hij, hget⟩ := ih a key (i + 1) e he
      exact ⟨j + 1, ne2, by omega, by simpa using hget⟩
    | structExport e2 =>
      obtain ⟨j, ne2, hij, hget⟩ := ih a key (i + 1) e he
      exact ⟨j + 1, ne2, by omega, by simpa using hget⟩
    | rawExport e2 =>
      obtain ⟨j, ne2, hij, hget⟩ := ih a key (i + 1) e he
      exact ⟨j + 1, ne2, by omega, by simpa using hget⟩

theorem scan_map_ok {asset : Asset} {keys : List String} {m : ItemMap}
    (hnd : keys.Nodup) (h : scan_item_arrays asset keys = .ok m) : mapOkIn asset m := by
  intro k l hl e he
  have hc := item_scan_first_level_characterization asset keys m hnd h k
  unfold lookupD at hc
  rw [hl, Option.getD_some] at hc
  by_cases hk : k ∈ keys
  · rw [if_pos hk] at hc
    subst hc
    obtain ⟨j, ne2, hij, hget⟩ := selected_from_entryOk asset.exports asset k 0 e he
    refine ⟨ne2, ?_⟩
    rw [show e.1 = j by omega]
    exact hget
  · rw [if_neg hk] at hc
    subst hc
    simp at he

theorem item_bgc_exports (a : Asset) (bgc : Option Int) (rn cn : String) :
    (item_bgc_imports a bgc rn cn).1.exports = a.exports := by
  cases bgc with
  | none => simp [item_bgc_imports, Asset.add_import, add_fname_fst_exports]
  | some b => rfl

theorem item_bgc_imports_len (a : Asset) (bgc : Option Int) (rn cn : String) :
    (item_bgc_imports a bgc rn cn).1.imports.length =
      a.imports.length + (if bgc = none then 2 else 0) := by
  cases bgc with
  | none => simp [item_bgc_imports, Asset.add_import, add_fname_fst_imports]
  | some b => simp [item_bgc_imports]

theorem process_matched_entry_spec {a : Asset} {bgc : Option Int} {rn cn sn : String} {entry : ItemEntry} {a2 : Asset} {bgc2 : Option Int}
    (h : process_matched_entry a bgc rn cn sn entry = .ok (a2, bgc2)) :
    a2.imports.length = a.imports.length +
      (if entry.2.1 = "ObjectProperty" ∧ bgc = none then 2 else 0) ∧
    a2.exports.length = a.exports.length ∧
    (entry.2.1 = "ObjectProperty" → bgc2.isSome = true) ∧
    (entry.2.1 ≠ "ObjectProperty" → bgc2 = bgc) ∧
    (∀ (j : Nat) ne, a.exports[j]? = some (Export.normalExport ne) →
       ∃ ne2, a2.exports[j]? = some (Export.normalExport ne2)) := by
  obtain ⟨ei, ty, nm⟩ := entry
  unfold process_matched_entry at h
  dsimp only at h
  by_cases hty : ty = "ObjectProperty"
  · rw [if_pos hty] at h
    rw [item_bgc_exports] at h
    cases hm : a.exports[ei]? with
    | none => rw [hm] at h; simp at h
    | some ex =>
      rw [hm] at h
      cases ex with
      | normalExport ne =>
        dsimp only at h
        cases h
        refine ⟨?_, ?_, fun _ => rfl, fun hc => absurd hty hc, ?_⟩
        · show (item_bgc_imports a bgc rn cn).1.imports.length = _
          rw [item_bgc_imports_len]
          simp [hty]
        · show (a.exports.set ei _).length = _
          simp
        · intro j ne3 hj
          by_cases hij : ei = j
          · subst hij
            refine ⟨{ ne with properties := ne.properties ++ [Property.objectProperty ⟨nm, 0⟩ none 0 (item_bgc_imports a bgc rn cn).2] }, ?_⟩
            show (a.exports.set ei _)[ei]? = _
            apply List.getElem?_set_eq_of_lt
            exact (List.getElem?_eq_some.mp hm).1
          · refine ⟨ne3, ?_⟩
            show (a.exports.set ei _)[j]? = _
            rw [List.getElem?_set_ne hij]
            exact hj
      | levelExport e => simp at h
      | structExport e => simp at h
      | rawExport e => simp at h
  · rw [if_neg hty] at h
    by_cases hty2 : ty = "SoftObjectProperty"
    · rw [if_pos hty2] at h
      rw [add_name_reference_fst_exports, add_fname_fst_exports] at h
      cases hm : a.exports[ei]? with
      | none => rw [hm] at h; simp at h
      | some ex =>
        rw [hm] at h
        cases ex with
        | normalExport ne =>
          dsimp only at h
          cases h
          refine ⟨?_, ?_, fun hc => absurd hc hty, fun _ => rfl, ?_⟩
          · show ((a.add_fname rn).1.add_name_reference _ false).1.imports.length = _
            rw [add_name_reference_fst_imports, add_fname_fst_imports]
            simp [hty]
          · show (a.exports.set ei _).length = _
            simp
          · intro j ne3 hj
            by_cases hij : ei = j
            · subst hij
              refine ⟨{ ne with properties := ne.properties ++ [Property.softObjectProperty ⟨nm, 0⟩ none 0 ⟨rn ++ "." ++ sn, 0⟩ 0] }, ?_⟩
              show (a.exports.set ei _)[ei]? = _
              apply List.getElem?_set_eq_of_lt
              exact (List.getElem?_eq_some.mp hm).1
            · refine ⟨ne3, ?_⟩
              show (a.exports.set ei _)[j]? = _
              rw [List.getElem?_set_ne hij]
              exact hj
        | levelExport e => simp at h
        | structExport e => simp at h
        | rawExport e => simp at h
    · rw [if_neg hty2] at h
      cases h
      exact ⟨by simp [hty], rfl, fun hc => absurd hc hty, fun _ => rfl, fun j ne3 hj => ⟨ne3, hj⟩⟩

theorem process_matched_entries_spec (rn cn sn : String) :
    ∀ (l : List ItemEntry) (st st' : Asset × Option Int),
      process_matched_entries rn cn sn st l = .ok st' →
      st'.1.imports.length = st.1.imports.length +
        (if st.2 = none ∧ l.any (fun e => e.2.1 == "ObjectProperty") = true then 2 else 0) ∧
      st'.1.exports.length = st.1.exports.length ∧
      (∀ (j : Nat) ne, st.1.exports[j]? = some (Export.normalExport ne) →
         ∃ ne2, st'.1.exports[j]? = some (Export.normalExport ne2)) := by
  intro l
  induction l with
  | nil =>
    intro st st' h
    cases h
    exact ⟨by simp, rfl, fun j ne hj => ⟨ne, hj⟩⟩
  | cons entry rest ih =>
    intro st st' h
    obtain ⟨st2, hfst, hrest⟩ := RResult.bind_ok h
    obtain ⟨a2, bgc2⟩ := st2
    obtain ⟨hg1, he1, hsome1, hkeep1, hpt1⟩ := process_matched_entry_spec hfst
    obtain ⟨hg2, he2, hpt2⟩ := ih (a2, bgc2) st' hrest
    refine ⟨?_, by rw [he2, he1], fun j ne hj => ?_⟩
    · by_cases hobj : entry.2.1 = "ObjectProperty"
      · have hbs : bgc2.isSome = true := hsome1 hobj
        have hb2 : ¬ bgc2 = none := by
          intro hc; rw [hc] at hbs; simp at hbs
        have e2 : (if bgc2 = none ∧ rest.any (fun e => e.2.1 == "ObjectProperty") = true then 2 else 0) = 0 :=
          if_neg (fun hc => hb2 hc.1)
        by_cases hn : st.2 = none
        · have e1 : (if entry.2.1 = "ObjectProperty" ∧ st.2 = none then 2 else 0) = 2 :=
            if_pos ⟨hobj, hn⟩
          have eG : (if st.2 = none ∧ (entry :: rest).any (fun e => e.2.1 == "ObjectProperty") = true then 2 else 0) = 2 :=
            if_pos ⟨hn, by simp [hobj]⟩
          rw [hg2, hg1, e1, e2, eG]
        · have e1 : (if entry.2.1 = "ObjectProperty" ∧ st.2 = none then 2 else 0) = 0 :=
            if_neg (fun hc => hn hc.2)
          have eG : (if st.2 = none ∧ (entry :: rest).any (fun e => e.2.1 == "ObjectProperty") = true then 2 else 0) = 0 :=
            if_neg (fun hc => hn hc.1)
          rw [hg2, hg1, e1, e2, eG]
      · have e1 : (if entry.2.1 = "ObjectProperty" ∧ st.2 = none then 2 else 0) = 0 :=
          if_neg (fun hc => hobj hc.1)
        have hcons : (entry :: rest).any (fun e => e.2.1 == "ObjectProperty") =
            rest.any (fun e => e.2.1 == "ObjectProperty") := by
          simp [hobj]
        rw [hg2, hg1, e1, hkeep1 hobj, hcons]
        simp
    · obtain ⟨ne2, h2⟩ := hpt1 j ne hj
      exact hpt2 j ne2 h2

theorem process_item_path_spec {asset : Asset} {m : ItemMap} {q : String} {a2 : Asset}
    (h : process_item_path asset m q = .ok a2) :
    a2.imports.length = asset.imports.length +
      (if (lookupD m q).any (fun e => e.2.1 == "ObjectProperty") = true then 2 else 0) ∧
    a2.exports.length = asset.exports.length ∧
    (∀ (j : Nat) ne, asset.exports[j]? = some (Export.normalExport ne) →
       ∃ ne2, a2.exports[j]? = some (Export.normalExport ne2)) := by
  unfold process_item_path at h
  obtain ⟨names, hcn, h2⟩ := RResult.bind_ok h
  obtain ⟨rn, cn, sn⟩ := names
  dsimp only at h2
  cases hl : lookupA m q with
  | none => rw [hl] at h2; simp at h2
  | some l =>
    rw [hl] at h2
    obtain ⟨st, hpme, h3⟩ := RResult.bind_ok h2
    cases h3
    obtain ⟨hg, he, hpt⟩ := process_matched_entries_spec rn cn sn l (asset, none) st hpme
    refine ⟨?_, he, hpt⟩
    rw [hg]
    unfold lookupD
    rw [hl]
    by_cases hany : (l.any fun e => e.2.1 == "ObjectProperty") = true
    · rw [if_pos ⟨rfl, hany⟩, if_pos (by simpa using hany)]
    · rw [if_neg (fun hc => hany hc.2), if_neg (by simpa using hany)]

theorem process_matched_entry_ok (a : Asset) (bgc : Option Int) (rn cn sn : String) (entry : ItemEntry)
    (hok : entryOkIn a entry) : ∃ st', process_matched_entry a bgc rn cn sn entry = .ok st' := by
  obtain ⟨ei, ty, nm⟩ := entry
  obtain ⟨ne, hne⟩ := hok
  unfold process_matched_entry
  dsimp only
  by_cases hty : ty = "ObjectProperty"
  · rw [if_pos hty, item_bgc_exports, hne]
    exact ⟨_, rfl⟩
  · rw [if_neg hty]
    by_cases hty2 : ty = "SoftObjectProperty"
    · rw [if_pos hty2, add_name_reference_fst_exports, add_fname_fst_exports, hne]
      exact ⟨_, rfl⟩
    · rw [if_neg hty2]
      exact ⟨_, rfl⟩

theorem process_matched_entries_ok (rn cn sn : String) :
    ∀ (l : List ItemEntry) (st : Asset × Option Int),
      (∀ e ∈ l, entryOkIn st.1 e) →
      ∃ st', process_matched_entries rn cn sn st l = .ok st' := by
  intro l
  induction l with
  | nil => intro st _; exact ⟨st, rfl⟩
  | cons entry rest ih =>
    intro st hok
    obtain ⟨st2, hfst⟩ := process_matched_entry_ok st.1 st.2 rn cn sn entry (hok entry (by simp))
    obtain ⟨a2, bgc2⟩ := st2
    obtain ⟨-, -, -, -, hpt⟩ := process_matched_entry_spec hfst
    obtain ⟨st', hrest⟩ := ih (a2, bgc2) (fun e he => by
      obtain ⟨ne, hne⟩ := hok e (by simp [he])
      exact hpt e.1 ne hne)
    refine ⟨st', ?_⟩
    show (process_matched_entry st.1 st.2 rn cn sn entry).bind _ = .ok st'
    rw [hfst]
    exact hrest

theorem item_path_wf_names {q : String} (hwf : item_path_wf q = true) :
    ∃ names, compute_item_names q = .ok names := by
  unfold item_path_wf at hwf
  unfold compute_item_names
  by_cases hc : containsChar '.' q = true
  · rw [if_pos hc]
    exact ⟨_, rfl⟩
  · rw [if_neg hc]
    simp only [hc, Bool.false_or] at hwf
    cases hs : fileStemS q with
    | none => rw [hs] at hwf; simp at hwf
    | some stem => exact ⟨_, rfl⟩

theorem process_item_path_cases {asset : Asset} {m : ItemMap} (q : String)
    (hwf : item_path_wf q = true)
    (hok : ∀ l, lookupA m q = some l → ∀ e ∈ l, entryOkIn asset e) :
    (lookupA m q = none → process_item_path asset m q = .fatal "called Option::unwrap on a None value") ∧
    (∀ l0, lookupA m q = some l0 → ∃ a2, process_item_path asset m q = .ok a2 ∧
      ∀ (j : Nat) ne, asset.exports[j]? = some (Export.normalExport ne) →
        ∃ ne2, a2.exports[j]? = some (Export.normalExport ne2)) := by
  obtain ⟨names, hcn⟩ := item_path_wf_names hwf
  obtain ⟨rn, cn, sn⟩ := names
  unfold process_item_path
  rw [hcn]
  cases hl : lookupA m q with
  | none => exact ⟨fun _ => rfl, fun l0 hl0 => by cases hl0⟩
  | some l =>
    refine ⟨fun hc => (by cases hc), fun l0 hl0 => ?_⟩
    cases hl0
    obtain ⟨st, hpme⟩ := process_matched_entries_ok rn cn sn l (asset, none) (fun e he => hok l hl e he)
    refine ⟨st.1, ?_, ?_⟩
    · show (process_matched_entries rn cn sn (asset, none) l).bind _ = .ok st.1
      rw [hpme]
      rfl
    · intro j ne hj
      exact (process_matched_entries_spec rn cn sn l (asset, none) st hpme).2.2 j ne hj

theorem process_item_paths_fatal {m : ItemMap} :
    ∀ (paths : List String) (asset : Asset),
      (∀ q ∈ paths, item_path_wf q = true) →
      mapOkIn asset m →
      (∃ p ∈ paths, lookupA m p = none) →
      process_item_paths m asset paths = .fatal "called Option::unwrap on a None value" := by
  intro paths
  induction paths with
  | nil => intro asset _ _ hex; simp at hex
  | cons q rest ih =>
    intro asset hwf hmap hex
    obtain ⟨hfatcase, hokcase⟩ := @process_item_path_cases asset m q (hwf q (by simp))
      (fun l hl e he => hmap q l hl e he)
    cases hlq : lookupA m q with
    | none =>
      show (process_item_path asset m q).bind _ = _
      rw [hfatcase hlq]
      rfl
    | some l0 =>
      obtain ⟨a2, hok2, hpt⟩ := hokcase l0 hlq
      show (process_item_path asset m q).bind _ = _
      rw [hok2]
      obtain ⟨p, hp, hnone⟩ := hex
      have hpr : p ∈ rest := by
        rcases List.mem_cons.mp hp with hq | hr
        · subst hq
          rw [hlq] at hnone
          cases hnone
        · exact hr
      show process_item_paths m a2 rest = _
      exact ih a2 (fun x hx => hwf x (by simp [hx]))
        (fun k l hl e he => by
          obtain ⟨ne, hne⟩ := hmap k l hl e he
          exact hpt e.1 ne hne)
        ⟨p, hpr, hnone⟩

theorem get_import_append_some {a b : Asset} {suff : List Import}
    (himp : b.imports = a.imports ++ suff) {v : Int} {imp : Import}
    (h : a.get_import v = some imp) : b.get_import v = some imp := by
  unfold Asset.get_import at h ⊢
  by_cases hv : v ≥ 0
  · rw [if_pos hv] at h; cases h
  · rw [if_neg hv] at h ⊢
    rw [himp, List.getElem?_append_left (List.getElem?_eq_some.mp h).1]
    exact h

theorem isMissionRefIn_append {a b : Asset} {suff : List Import}
    (himp : b.imports = a.imports ++ suff) {v : Int}
    (h : isMissionRefIn a v) : isMissionRefIn b v := by
  obtain ⟨imp, h1, h2, h3⟩ := h
  exact ⟨imp, get_import_append_some himp h1, h2, h3⟩

theorem get_import_add_import (a : Asset) (imp : Import) :
    ((a.add_import imp).1).get_import ((a.add_import imp).2) = some imp := by
  unfold Asset.add_import Asset.get_import
  dsimp only
  rw [if_neg (by omega)]
  have hidx : (-(-((a.imports.length : Int) + 1)) - 1).toNat = a.imports.length := by omega
  rw [hidx]
  exact List.getElem?_concat_length a.imports imp

theorem stage_one_trailhead_spec (asset : Asset) (props : List Property) (t s : String)
    (hs : fileStemS t = some s) :
    ∃ a1 v, stage_one_trailhead (asset, props) t =
        .ok (a1, props ++ [Property.objectProperty ⟨"dummy", 0⟩ none 0 v]) ∧
      a1.exports = asset.exports ∧
      (∃ suff, a1.imports = asset.imports ++ suff) ∧
      isMissionRefIn a1 v := by
  unfold stage_one_trailhead
  dsimp only
  rw [hs]
  refine ⟨_, _, rfl, ?_, ?_, ?_⟩
  · simp [Asset.add_import, add_name_reference_fst_exports]
  · refine ⟨[⟨⟨"/Script/CoreUObject", 0⟩, ⟨"Package", 0⟩, 0, ⟨t, 0⟩⟩,
        ⟨⟨"/Script/Astro", 0⟩, ⟨"AstroMissionDataAsset", 0⟩,
          -1 + -(asset.imports.length : Int), ⟨s, 0⟩⟩], ?_⟩
    simp [Asset.add_import, add_name_reference_fst_imports]
  · exact ⟨_, get_import_add_import _ _, rfl, rfl⟩

theorem stage_trailheads_spec : ∀ (ths : List String) (asset : Asset) (props : List Property),
    (∀ t ∈ ths, (fileStemS t).isSome = true) →
    ∃ a2 extra, stage_trailheads asset props ths = .ok (a2, props ++ extra) ∧
      a2.exports = asset.exports ∧
      (∃ suff, a2.imports = asset.imports ++ suff) ∧
      extra.length = ths.length ∧
      ∀ p ∈ extra, ∃ v, p = Property.objectProperty ⟨"dummy", 0⟩ none 0 v ∧ isMissionRefIn a2 v := by
  intro ths
  induction ths with
  | nil =>
    intro asset props _
    exact ⟨asset, [], by simp [stage_trailheads], rfl, ⟨[], by simp⟩, rfl, by simp⟩
  | cons t rest ih =>
    intro asset props hst
    obtain ⟨s, hs⟩ := Option.isSome_iff_exists.mp (hst t (by simp))
    obtain ⟨a1, v, hone, hexp1, ⟨suff1, himp1⟩, href1⟩ := stage_one_trailhead_spec asset props t s hs
    obtain ⟨a2, extra2, hrest, hexp2, ⟨suff2, himp2⟩, hlen2, hmem2⟩ :=
      ih a1 (props ++ [Property.objectProperty ⟨"dummy", 0⟩ none 0 v]) (fun x hx => hst x (by simp [hx]))
    refine ⟨a2, Property.objectProperty ⟨"dummy", 0⟩ none 0 v :: extra2, ?_, ?_, ?_, ?_, ?_⟩
    · show (stage_one_trailhead (asset, props) t).bind _ = _
      rw [hone]
      show stage_trailheads a1 _ rest = _
      rw [hrest]
      simp
    · rw [hexp2, hexp1]
    · exact ⟨suff1 ++ suff2, by rw [himp2, himp1, List.append_assoc]⟩
    · simp [hlen2]
    · intro p hp
      rcases List.mem_cons.mp hp with hp1 | hp2
      · exact ⟨v, hp1, isMissionRefIn_append himp2 href1⟩
      · exact hmem2 p hp2

theorem rename_staged_spec (nm : FName) : ∀ (props : List Property),
    (∀ p ∈ props, ∃ pg di v, p = Property.objectProperty ⟨"dummy", 0⟩ pg di v) →
    ∃ renamed, rename_staged nm props = .ok renamed ∧ renamed.length = props.length ∧
      ∀ q ∈ renamed, ∃ pg di v, q = Property.objectProperty nm pg di v ∧
        Property.objectProperty ⟨"dummy", 0⟩ pg di v ∈ props := by
  intro props
  induction props with
  | nil => intro _; exact ⟨[], rfl, rfl, by simp⟩
  | cons p rest ih =>
    intro hsh
    obtain ⟨pg, di, v, hp⟩ := hsh p (by simp)
    obtain ⟨renamed, hren, hlen, hmem⟩ := ih (fun q hq => hsh q (by simp [hq]))
    subst hp
    refine ⟨Property.objectProperty nm pg di v :: renamed, ?_, by simp [hlen], ?_⟩
    · show (rename_staged_property nm _).bind _ = _
      rw [show rename_staged_property nm (Property.objectProperty ⟨"dummy", 0⟩ pg di v) =
        .ok (Property.objectProperty nm pg di v) from rfl]
      show (rename_staged nm rest).bind _ = _
      rw [hren]
      rfl
    · intro q hq
      rcases List.mem_cons.mp hq with hq1 | hq2
      · exact ⟨pg, di, v, hq1, by simp⟩
      · obtain ⟨pg2, di2, v2, hq2e, hq2m⟩ := hmem q hq2
        exact ⟨pg2, di2, v2, hq2e, by simp [hq2m]⟩

theorem get_import_append_stable {a b : Asset} {suff : List Import}
    (himp : b.imports = a.imports ++ suff) {v : Int}
    (hin : -v ≤ (a.imports.length : Int)) :
    b.get_import v = a.get_import v := by
  unfold Asset.get_import
  by_cases hv : v ≥ 0
  · rw [if_pos hv, if_pos hv]
  · rw [if_neg hv, if_neg hv, himp]
    exact List.getElem?_append_left (by omega)

theorem classImportObjectNameIs_stable {a b : Asset} {suff : List Import}
    (himp : b.imports = a.imports ++ suff) {b0 : BaseExport} (s : String)
    (hr : classIndexInRange a.imports.length b0 = true) :
    classImportObjectNameIs b b0.class_index s = classImportObjectNameIs a b0.class_index s := by
  unfold classIndexInRange at hr
  by_cases hci : b0.class_index < 0
  · rw [if_pos hci] at hr
    have hle : -b0.class_index ≤ (a.imports.length : Int) := of_decide_eq_true hr
    unfold classImportObjectNameIs
    rw [get_import_append_stable himp hle]
  · unfold classImportObjectNameIs isImportIndex
    simp [hci]

theorem find_settings_export_loop_stable {a b : Asset} {suff : List Import}
    (himp : b.imports = a.imports ++ suff) :
    ∀ (exps : List Export) (i : Nat),
      (∀ e ∈ exps, classIndexInRange a.imports.length (Export.base_of e) = true) →
      find_settings_export_loop b i exps = find_settings_export_loop a i exps := by
  intro exps
  induction exps with
  | nil => intro i _; rfl
  | cons x rest ih =>
    intro i hall
    cases x with
    | normalExport e =>
      unfold find_settings_export_loop
      have hr : classIndexInRange a.imports.length e.base_export = true :=
        hall (Export.normalExport e) (by simp)
      rw [classImportObjectNameIs_stable himp "AstroSettings" hr]
      by_cases hc : classImportObjectNameIs a e.base_export.class_index "AstroSettings" = true
      · rw [if_pos hc, if_pos hc]
      · rw [if_neg hc, if_neg hc]
        exact ih (i + 1) (fun x hx => hall x (by simp [hx]))
    | levelExport e => exact ih (i + 1) (fun x hx => hall x (by simp [hx]))
    | structExport e => exact ih (i + 1) (fun x hx => hall x (by simp [hx]))
    | rawExport e => exact ih (i + 1) (fun x hx => hall x (by simp [hx]))

theorem find_settings_export_stable {a b : Asset} {suff : List Import}
    (himp : b.imports = a.imports ++ suff) (hexp : b.exports = a.exports)
    (hwf : importRefsWF a = true) :
    find_settings_export b = find_settings_export a := by
  unfold find_settings_export
  rw [hexp]
  exact find_settings_export_loop_stable himp a.exports 0
    (by simpa [importRefsWF, List.all_eq_true] using hwf)

theorem find_settings_export_loop_sound {a : Asset} : ∀ (exps : List Export) (i j : Nat),
    find_settings_export_loop a i exps = some j →
    ∃ k e, i + k = j ∧ exps[k]? = some (Export.normalExport e) := by
  intro exps
  induction exps with
  | nil => intro i j h; cases h
  | cons x rest ih =>
    intro i j h
    cases x with
    | normalExport e =>
      unfold find_settings_export_loop at h
      by_cases hc : classImportObjectNameIs a e.base_export.class_index "AstroSettings" = true
      · rw [if_pos hc] at h
        cases h
        exact ⟨0, e, by omega, by simp⟩
      · rw [if_neg hc] at h
        obtain ⟨k, e2, hik, hget⟩ := ih (i + 1) j h
        exact ⟨k + 1, e2, by omega, by simpa using hget⟩
    | levelExport e2 =>
      obtain ⟨k, e3, hik, hget⟩ := ih (i + 1) j h
      exact ⟨k + 1, e3, by omega, by simpa using hget⟩
    | structExport e2 =>
      obtain ⟨k, e3, hik, hget⟩ := ih (i + 1) j h
      exact ⟨k + 1, e3, by omega, by simpa using hget⟩
    | rawExport e2 =>
      obtain ⟨k, e3, hik, hget⟩ := ih (i + 1) j h
      exact ⟨k + 1, e3, by omega, by simpa using hget⟩

/-- C10: when the matched-array map contains the current instruction key but
some item path in that key's path list is not itself a key of the map, the
per-asset item handler dies with the Rust unwrap panic message and the
archive write-back is never reached. -/
theorem item_missing_path_unwrap_fatal
    {pak : PakFile} {asset : Asset} {all_keys : List String} {m : ItemMap}
    {name : String} {paths : List String} {rest : List (String × List String)}
    {path : String} {p : String}
    (hnd : all_keys.Nodup)
    (hscan : scan_item_arrays asset all_keys = .ok m)
    (hname : (lookupA m name).isSome = true)
    (hwf : ∀ q ∈ paths, item_path_wf q = true)
    (hp : p ∈ paths) (hmiss : lookupA m p = none) :
    handle_item_asset_and_write pak asset all_keys ((name, paths) :: rest) path =
      .fatal "called Option::unwrap on a None value" := by
  have hmap : mapOkIn asset m := scan_map_ok hnd hscan
  have hfat : process_item_paths m asset paths = .fatal "called Option::unwrap on a None value" :=
    process_item_paths_fatal paths asset hwf hmap ⟨p, hp, hmiss⟩
  unfold handle_item_asset_and_write handle_item_list_for_asset
  rw [hscan]
  show ((process_item_key asset m name paths).bind _).bind _ = _
  unfold process_item_key
  rw [if_neg (fun hc => by rw [hname] at hc; cases hc), hfat]
  rfl

/-- C8 (amended): within one occurrence of an item path the blueprint-class import
chain is added at most once — the Import Table grows by exactly 2 when
any matched array for that path has element type ObjectProperty and by 0
otherwise, regardless of how many matched arrays there are; a repeated
occurrence of the same path re-adds the chain (see the counterexample). -/
theorem item_chain_added_once_per_occurrence
    {asset : Asset} {m : ItemMap} {q : String} {a2 : Asset}
    (h : process_item_path asset m q = .ok a2) :
    a2.imports.length = asset.imports.length +
      (if (lookupD m q).any (fun e => e.2.1 == "ObjectProperty") = true then 2 else 0) :=
  (process_item_path_spec h).1

theorem item_chain_added_once_per_occurrence_witness :
    process_item_path c8Asset c8Map "/Game/Item.Item_C" = .ok c8_out1 ∧
    c8_out1.imports.length = c8Asset.imports.length +
      (if (lookupD c8Map "/Game/Item.Item_C").any (fun e => e.2.1 == "ObjectProperty") = true then 2 else 0) :=
  ⟨rfl, item_chain_added_once_per_occurrence rfl⟩

/-- C8 counterexample: processing the same item path twice re-adds the
package import chain — four imports added, the package import duplicated. -/
theorem item_chain_readded_per_occurrence :
    process_item_key c8Asset c8Map "/Game/Item.Item_C" ["/Game/Item.Item_C", "/Game/Item.Item_C"] = .ok c8_out2 ∧
    c8_out2.imports.length = c8Asset.imports.length + 4 ∧
    c8_out2.imports.countP
      (fun imp => imp == ⟨⟨"/Script/CoreUObject", 0⟩, ⟨"Package", 0⟩, 0, ⟨"/Game/Item", 0⟩⟩) = 2 :=
  ⟨rfl, rfl, rfl⟩

/-- C7 counterexample: scanning with the first-level key set selects nothing
on an asset whose only array property is named by the instruction's
second-level key, while the claim's reading selects that property. -/
theorem item_scan_second_level_counterexample :
    scan_item_arrays c7Asset ["/Game/A"] = .ok [] ∧
    lookupD [] "Entries" = [] ∧
    selected_entries_for_key c7Asset "Entries" = [(0, "ObjectProperty", "Entries")] :=
  ⟨rfl, rfl, rfl⟩

theorem item_scan_first_level_characterization_witness :
    (["/Game/A"] : List String).Nodup ∧
    scan_item_arrays c7Asset ["/Game/A"] = .ok [] ∧
    lookupD [] "/Game/A" =
      (if "/Game/A" ∈ ["/Game/A"] then selected_entries_for_key c7Asset "/Game/A" else []) :=
  ⟨by decide, rfl,
    item_scan_first_level_characterization c7Asset ["/Game/A"] [] (by decide) rfl "/Game/A"⟩

theorem item_missing_path_unwrap_fatal_witness :
    (["K"] : List String).Nodup ∧
    scan_item_arrays c10Asset ["K"] = .ok c10Map ∧
    (lookupA c10Map "K").isSome = true ∧
    (∀ q ∈ ["/Game/Missing.Item_C"], item_path_wf q = true) ∧
    "/Game/Missing.Item_C" ∈ ["/Game/Missing.Item_C"] ∧
    lookupA c10Map "/Game/Missing.Item_C" = none ∧
    handle_item_asset_and_write integratedPakW c10Asset ["K"] [("K", ["/Game/Missing.Item_C"])] "P" =
      .fatal "called Option::unwrap on a None value" :=
  ⟨by decide, rfl, rfl, by decide, by decide, rfl,
    @item_missing_path_unwrap_fatal integratedPakW c10Asset ["K"] c10Map "K"
      ["/Game/Missing.Item_C"] [] "P" "/Game/Missing.Item_C"
      (by decide) rfl rfl (by decide) (by decide) rfl⟩

/-- C9: per-map mission-trailhead linking succeeds; when an AstroSettings
export exists, exactly one object property per trailhead — renamed to that
export's object name and pointing at an AstroMissionDataAsset import — is
appended to that export's property list and no other export changes; when
none exists, every export's property list is left untouched. -/
theorem mission_trailhead_settings_append
    (asset : Asset) (trailheads : List String)
    (hwf : importRefsWF asset = true)
    (hst : ∀ t ∈ trailheads, (fileStemS t).isSome = true) :
    ∃ a2, handle_mission_trailheads_for_map asset trailheads = .ok a2 ∧
      (∀ i, find_settings_export asset = some i →
        ∃ e renamed, asset.exports[i]? = some (Export.normalExport e) ∧
          renamed.length = trailheads.length ∧
          (∀ p ∈ renamed, ∃ v, p = Property.objectProperty e.base_export.object_name none 0 v ∧
            isMissionRefIn a2 v) ∧
          a2.exports = asset.exports.set i
            (Export.normalExport { e with properties := e.properties ++ renamed })) ∧
      (find_settings_export asset = none → a2.exports = asset.exports) := by
  obtain ⟨asset2, extra, hstage, hexp, ⟨suff, himp⟩, hlen, hmem⟩ :=
    stage_trailheads_spec trailheads asset [] hst
  have hfse : find_settings_export asset2 = find_settings_export asset :=
    find_settings_export_stable himp hexp hwf
  cases hfse2 : find_settings_export asset with
  | none =>
    have hres : handle_mission_trailheads_for_map asset trailheads = .ok asset2 := by
      unfold handle_mission_trailheads_for_map
      rw [hstage]
      dsimp only [RResult.bind]
      rw [hfse, hfse2]
    refine ⟨asset2, hres, ?_, fun _ => hexp⟩
    intro i hc
    cases hc
  | some i =>
    obtain ⟨k, e, hik, hget0⟩ := find_settings_export_loop_sound asset.exports 0 i hfse2
    have hki : k = i := by omega
    subst hki
    obtain ⟨renamed, hren, hrlen, hrmem⟩ :=
      rename_staged_spec e.base_export.object_name extra
        (fun p hp => (hmem p hp).elim (fun v hv => ⟨none, 0, v, hv.1⟩))
    refine ⟨{ asset2 with exports := asset.exports.set k (Export.normalExport { e with properties := e.properties ++ renamed }) }, ?_, ?_, ?_⟩
    · unfold handle_mission_trailheads_for_map
      rw [hstage]
      dsimp only [RResult.bind]
      rw [hfse, hfse2]
      dsimp only
      rw [hexp, hget0]
      dsimp only
      rw [List.nil_append, hren]
    · intro i2 hc
      cases hc
      refine ⟨e, renamed, hget0, by rw [hrlen, hlen], ?_, rfl⟩
      intro p hp
      obtain ⟨pg, di, v, hq, hdm⟩ := hrmem p hp
      obtain ⟨v2, hpv2, href⟩ := hmem _ hdm
      injection hpv2 with h1 h2 h3 h4
      subst h2
      subst h3
      subst h4
      exact ⟨v, hq, href⟩
    · intro hc
      cases hc

theorem mission_trailhead_settings_append_witness :
    importRefsWF c9Asset = true ∧
    (∀ t ∈ ["/Game/Missions/M1"], (fileStemS t).isSome = true) ∧
    (∃ a2, handle_mission_trailheads_for_map c9Asset ["/Game/Missions/M1"] = .ok a2 ∧
      (∀ i, find_settings_export c9Asset = some i →
        ∃ e renamed, c9Asset.exports[i]? = some (Export.normalExport e) ∧
          renamed.length = (["/Game/Missions/M1"] : List String).length ∧
          (∀ p ∈ renamed, ∃ v, p = Property.objectProperty e.base_export.object_name none 0 v ∧
            isMissionRefIn a2 v) ∧
          a2.exports = c9Asset.exports.set i
            (Export.normalExport { e with properties := e.properties ++ renamed })) ∧
      (find_settings_export c9Asset = none → a2.exports = c9Asset.exports)) :=
  ⟨by decide, by decide,
    mission_trailhead_settings_append c9Asset ["/Game/Missions/M1"] (by decide) (by decide)⟩
